import Mathlib

/-!
Verification development for the `hover` repository (kivy_garden.hover).

The embedding below is a shallow translation of `src/kivy_garden/hover/__init__.py`:

* `Event` models `kivy.input.motionevent.MotionEvent` restricted to the fields the
  hover code reads or writes (`uid`, window coordinates `x`/`y` used as `pos`,
  the normalized fields `sx sy sz / psx psy psz / dsx dsy dsz` manipulated by
  `_dispatch_from_clock`, `grab_list`, `grab_current`, `grab_state`, `time_end`,
  and the push/pop save stack).
* Python dictionaries (`_events`, `_event_times`, the widget heap) are association
  lists; `delK` returns `Option` so that a Python `KeyError` is observable.
* Widget behavior (`widget.dispatch('on_motion', etype, me)`) is an external
  collaborator: it is a parameter `beh` of `Config`, threading an arbitrary
  widget-world state `W`, mutating the event, and returning the accepted flag.
* Every delivery the manager makes is recorded in a trace (`TraceItem`) so that
  theorems can speak about which widgets received which synthetic deliveries.
* `HoverBehavior.on_hover_event` is translated concretely (`onHoverEvent`) for the
  widget-level claims; its `hover_ids.pop(me.uid)` is `Option`-valued because the
  Python `dict.pop` with a single argument raises `KeyError` on a missing key.
-/

namespace Hover

/-! ### Association-list dictionaries (Python `dict` / `defaultdict`) -/

/-- `d.get(k)`: first binding of `k`, scanning in insertion order. -/
def getK {α : Type} : List (Nat × α) → Nat → Option α
  | [], _ => none
  | (k, v) :: t, key => if k = key then some v else getK t key

/-- `defaultdict` read: the binding of `k`, or the default. -/
def getD {α : Type} (l : List (Nat × α)) (key : Nat) (d : α) : α :=
  (getK l key).getD d

/-- `d[k] = v`: replace in place, or append a new binding (Python insertion order). -/
def setK {α : Type} : List (Nat × α) → Nat → α → List (Nat × α)
  | [], key, v => [(key, v)]
  | (k, a) :: t, key, v =>
    if k = key then (key, v) :: t else (k, a) :: setK t key v

/-- `del d[k]`: `none` models the `KeyError` raised on a missing key. -/
def delK {α : Type} : List (Nat × α) → Nat → Option (List (Nat × α))
  | [], _ => none
  | (k, a) :: t, key =>
    if k = key then some t else (delK t key).map (fun r => (k, a) :: r)

/-- The keys of a dictionary are distinct (always true of a Python `dict`). -/
def KeysND {α : Type} (l : List (Nat × α)) : Prop :=
  (l.map Prod.fst).Nodup

/-! ### The motion event (`MotionEvent` fields used by the hover code) -/

/-- Shallow model of a hover `MotionEvent`.  `x`/`y` play the role of `me.pos`
(window coordinates, mutated by coordinate transforms and saved by
`push`/`pop`); the `s/ps/ds` triples are the normalized fields that
`_dispatch_from_clock` saves, zeroes and restores. -/
structure Event where
  uid : Nat
  x : Int
  y : Int
  sx : Int
  sy : Int
  sz : Int
  psx : Int
  psy : Int
  psz : Int
  dsx : Int
  dsy : Int
  dsz : Int
  grab_list : List Nat
  grab_current : Option Nat
  grab_state : Bool
  time_end : Int
  stack : List (Int × Int)
deriving DecidableEq

/-- `me.pos`. -/
def Event.pos (me : Event) : Int × Int := (me.x, me.y)

/-- `me.push()`: save the coordinate state. -/
def Event.push (me : Event) : Event :=
  { me with stack := (me.x, me.y) :: me.stack }

/-- `me.pop()`: restore the last saved coordinate state (no-op on an empty
stack, which the manager never reaches: every `pop` follows a `push`). -/
def Event.pop (me : Event) : Event :=
  match me.stack with
  | [] => me
  | (px, py) :: rest => { me with x := px, y := py, stack := rest }

/-- `me.grab(widget)`: Kivy appends a weak reference unless already present. -/
def Event.grab (me : Event) (v : Nat) : Event :=
  if v ∈ me.grab_list then me
  else { me with grab_list := me.grab_list ++ [v] }

/-- `me.ungrab(widget)`: Kivy removes the reference if present. -/
def Event.ungrab (me : Event) (v : Nat) : Event :=
  { me with grab_list := me.grab_list.erase v }

/-- `me.update_time_end()`: stamp the current clock time. -/
def Event.update_time_end (me : Event) (now : Int) : Event :=
  { me with time_end := now }

/-! ### The manager's environment and state -/

/-- Observable deliveries made by the manager during one call. -/
inductive TraceItem where
  /-- `widget.dispatch('on_motion', etype, me)` during the tree walk. -/
  | walkDelivery (widget : Nat) (etype : String) (accepted : Bool)
  /-- `widget.dispatch('on_motion', etype, me)` inside `_dispatch_to_widget`,
  recorded with the event's uid and `grab_current` at the moment of delivery. -/
  | directDelivery (widget : Nat) (etype : String) (uid : Nat) (grabCur : Option Nat)
  /-- the `AttributeError` branch of `_dispatch_to_widget`: transform failed,
  delivery skipped. -/
  | transformFail (widget : Nat)
  /-- `self.dispatch('update', me)` issued by `_dispatch_from_clock`, recorded
  with the exact event value passed in. -/
  | clockDispatch (me : Event)
deriving DecidableEq

/-- External collaborators of `HoverManager`, threading a widget-world state `W`:
the window children list, each widget's `on_motion` (which may mutate the event
and the widget world), weak-reference liveness, `get_root_window`, and the two
coordinate transforms (`transform_motion_event_2d` without / with a target
widget; the latter may raise `AttributeError`, modelled by `none`). -/
structure Config (W : Type) where
  children : List Nat
  beh : W → Nat → String → Event → W × Event × Bool
  alive : Nat → Bool
  rootWin : Nat → Option Nat
  transformW : Int × Int → Int × Int
  transformWidget : Nat → Int × Int → Option (Int × Int)
  event_repeat_timeout : Int

/-- `HoverManager` state: `_events` (uid → grab-list snapshots, newest first),
`_event_times`, the heap of live event objects keyed by uid (Python's aliasing
of the stored event references), the scheduled clock event, and the widget
world. -/
structure MState (W : Type) where
  events : List (Nat × List (List Nat))
  times : List (Nat × Int)
  heap : List (Nat × Event)
  clockEvent : Bool
  world : W

/-- `cfg.beh` never changes the event's uid (true of real widgets: `uid` is a
read-only attribute of a Kivy motion event). -/
def BehPreservesUid {W : Type} (cfg : Config W) : Prop :=
  ∀ w v et me, ((cfg.beh w v et me).2.1).uid = me.uid

/-! ### `HoverManager._dispatch_to_widgets` (tree walk) -/

/-- The `for widget in self.window.children[:]` loop: deliver until the first
widget accepts. -/
def walkWidgets {W : Type} (cfg : Config W) (etype : String) :
    List Nat → W → Event → W × Event × Bool × List TraceItem
  | [], w, me => (w, me, false, [])
  | c :: rest, w, me =>
    let r := cfg.beh w c etype me
    if r.2.2 then (r.1, r.2.1, true, [TraceItem.walkDelivery c etype true])
    else
      let rr := walkWidgets cfg etype rest r.1 r.2.1
      (rr.1, rr.2.1, rr.2.2.1, TraceItem.walkDelivery c etype false :: rr.2.2.2)

/-- `HoverManager._dispatch_to_widgets`: push, window transform, walk, pop. -/
def dispatchToWidgets {W : Type} (cfg : Config W) (etype : String)
    (w : W) (me : Event) : W × Event × Bool × List TraceItem :=
  let me1 := me.push
  let p := cfg.transformW (me1.x, me1.y)
  let me2 := { me1 with x := p.1, y := p.2 }
  let r := walkWidgets cfg etype cfg.children w me2
  (r.1, (r.2.1).pop, r.2.2.1, r.2.2.2)

/-! ### `HoverManager._dispatch_to_widget` (direct delivery) -/

/-- The delivery core of `_dispatch_to_widget`: set `grab_current`, invoke
`on_motion`, restore `grab_current` (the `_context` push/sandbox/pop around the
call is host bookkeeping with no effect on the model). -/
def deliverToWidget {W : Type} (cfg : Config W) (etype : String)
    (w : W) (me : Event) (widget : Nat) : W × Event × List TraceItem :=
  let prevGC := me.grab_current
  let me1 := { me with grab_current := some widget }
  let r := cfg.beh w widget etype me1
  (r.1, { r.2.1 with grab_current := prevGC },
    [TraceItem.directDelivery widget etype me1.uid me1.grab_current])

/-- `HoverManager._dispatch_to_widget`: transform into the widget's root (with
the `AttributeError` → push-restore-and-return guard), then deliver. -/
def dispatchToWidget {W : Type} (cfg : Config W) (etype : String)
    (w : W) (me : Event) (widget : Nat) : W × Event × List TraceItem :=
  let needT :=
    match cfg.rootWin widget with
    | some r => decide (r ≠ widget)
    | none => false
  if needT then
    let me1 := me.push
    match cfg.transformWidget widget (me1.x, me1.y) with
    | none => (w, me1.pop, [TraceItem.transformFail widget])
    | some p =>
      let me2 := { me1 with x := p.1, y := p.2 }
      let r := deliverToWidget cfg etype w me2 widget
      (r.1, (r.2.1).pop, r.2.2)
  else
    deliverToWidget cfg etype w me widget

/-! ### `HoverManager._dispatch_to_grabbed_widgets` (reconciler) -/

/-- The `for weak_widget in prev_me_grab_list` loop: deliver `"end"` to each
previous grabber that is not in the current grab list and still resolves. -/
def reconcileLoop {W : Type} (cfg : Config W) (curList : List Nat) :
    List Nat → W → Event → W × Event × List TraceItem
  | [], w, me => (w, me, [])
  | v :: rest, w, me =>
    if v ∈ curList then reconcileLoop cfg curList rest w me
    else if cfg.alive v then
      let r := dispatchToWidget cfg "end" w me v
      let rr := reconcileLoop cfg curList rest r.1 r.2.1
      (rr.1, rr.2.1, r.2.2 ++ rr.2.2)
    else reconcileLoop cfg curList rest w me

/-- `HoverManager._dispatch_to_grabbed_widgets`: save `grab_state`, `time_end`
and the current grab list, install the previous grab list with termination
semantics, loop, then restore all three fields. -/
def dispatchToGrabbedWidgets {W : Type} (cfg : Config W) (now : Int)
    (w : W) (me : Event) (prev_me_grab_list : List Nat) :
    W × Event × List TraceItem :=
  let prev_grab_state := me.grab_state
  let prev_time_end := me.time_end
  let me_grab_list := me.grab_list
  let me1 := { me with grab_list := prev_me_grab_list }
  let me2 := me1.update_time_end now
  let me3 := { me2 with grab_state := true }
  let r := reconcileLoop cfg me_grab_list prev_me_grab_list w me3
  (r.1, { r.2.1 with grab_list := me_grab_list, grab_state := prev_grab_state,
                     time_end := prev_time_end }, r.2.2)

/-! ### `HoverManager.dispatch` -/

/-- `HoverManager.dispatch(etype, me)`: snapshot and clear `grab_list`, tree
walk, record `(me, grab_list[:])` and the time in the ledger, reconcile when
the ledger holds two entries, drop the entry on `"end"` (where a missing key
would be a `KeyError`, hence the `Option`), restore `grab_list`, return
`accepted`.  The final event value is written back to the heap (the stored
reference aliases the caller's object). -/
def dispatch {W : Type} (cfg : Config W) (now : Int) (etype : String)
    (st : MState W) (me : Event) :
    Option (MState W × Event × Bool × List TraceItem) :=
  let me_grab_list := me.grab_list
  let me0 := { me with grab_list := [] }
  let rw := dispatchToWidgets cfg etype st.world me0
  let w1 := rw.1
  let me1 := rw.2.1
  let accepted := rw.2.2.1
  let tr1 := rw.2.2.2
  let lst := me1.grab_list :: getD st.events me1.uid []
  let events1 := setK st.events me1.uid lst
  let times1 := setK st.times me1.uid now
  let step :=
    if lst.length = 2 then
      let rr := dispatchToGrabbedWidgets cfg now w1 me1 (lst.getLastD [])
      (rr.1, rr.2.1, rr.2.2, setK events1 me1.uid lst.dropLast)
    else (w1, me1, ([] : List TraceItem), events1)
  let w2 := step.1
  let me2 := step.2.1
  let tr2 := step.2.2.1
  let events2 := step.2.2.2
  let fin : Option (List (Nat × List (List Nat)) × List (Nat × Int)) :=
    if etype = "end" then
      (delK events2 me2.uid).bind fun e3 =>
        (delK times1 me2.uid).map fun t3 => (e3, t3)
    else some (events2, times1)
  fin.map fun p =>
    let me3 := { me2 with grab_list := me_grab_list }
    ({ events := p.1, times := p.2, heap := setK st.heap me3.uid me3,
       clockEvent := st.clockEvent, world := w2 },
     me3, accepted, tr1 ++ tr2)

/-! ### `HoverManager.stop` -/

/-- The `for me_list in self._events.values()` loop of `stop`: reconcile every
tracked event against its stored grab list (`none` models the unreachable
failures: an empty stored list, or a stored event reference with no heap
entry). -/
def stopLoop {W : Type} (cfg : Config W) (now : Int) :
    List (Nat × List (List Nat)) → W → List (Nat × Event) →
    Option (W × List (Nat × Event) × List TraceItem)
  | [], w, heap => some (w, heap, [])
  | (uid, snaps) :: rest, w, heap =>
    match snaps with
    | [] => none
    | snap :: _ =>
      (getK heap uid).bind fun me =>
        let r := dispatchToGrabbedWidgets cfg now w me snap
        (stopLoop cfg now rest r.1 (setK heap (r.2.1).uid r.2.1)).map fun s =>
          (s.1, s.2.1, r.2.2 ++ s.2.2)

/-- `HoverManager.stop`: flush every tracked grab, clear both ledger maps,
cancel the clock event. -/
def stop {W : Type} (cfg : Config W) (now : Int) (st : MState W) :
    Option (MState W × List TraceItem) :=
  (stopLoop cfg now st.events st.world st.heap).map fun r =>
    ({ events := [], times := [], heap := r.2.1, clockEvent := false,
       world := r.1 }, r.2.2)

/-! ### `HoverManager._dispatch_from_clock` -/

/-- The batching loop of `_dispatch_from_clock`: collect every tracked event
whose last delivery is at least `event_repeat_timeout` old, before dispatching
any of them.  `none` models the unreachable `KeyError` on `times[me.uid]` and
the unreachable empty entry. -/
def collectStale {W : Type} (cfg : Config W) (timeNow : Int)
    (times : List (Nat × Int)) (heap : List (Nat × Event)) :
    List (Nat × List (List Nat)) → Option (List Event)
  | [] => some []
  | (uid, snaps) :: rest =>
    match snaps with
    | [] => none
    | _ :: _ =>
      (getK heap uid).bind fun me =>
      (getK times me.uid).bind fun t =>
      (collectStale cfg timeNow times heap rest).map fun l =>
        if timeNow - t < cfg.event_repeat_timeout then l else me :: l

/-- One iteration of the update loop of `_dispatch_from_clock`: save the
previous-position and delta fields, synthesize a zero-delta `"update"`
dispatch, restore the saved fields on the (aliased) event object. -/
def clockUpdateOne {W : Type} (cfg : Config W) (timeNow : Int)
    (st : MState W) (me : Event) : Option (MState W × List TraceItem) :=
  let psx := me.psx
  let psy := me.psy
  let psz := me.psz
  let dsx := me.dsx
  let dsy := me.dsy
  let dsz := me.dsz
  let me1 := { me with psx := me.sx, psy := me.sy, psz := me.sz,
                       dsx := 0, dsy := 0, dsz := 0 }
  (dispatch cfg timeNow "update" st me1).map fun r =>
    let me3 := { r.2.1 with psx := psx, psy := psy, psz := psz,
                            dsx := dsx, dsy := dsy, dsz := dsz }
    ({ r.1 with heap := setK r.1.heap me3.uid me3 },
     TraceItem.clockDispatch me1 :: r.2.2.2)

/-- The `for me in events_to_update` loop. -/
def clockUpdateLoop {W : Type} (cfg : Config W) (timeNow : Int) :
    List Event → MState W → Option (MState W × List TraceItem)
  | [], st => some (st, [])
  | me :: rest, st =>
    (clockUpdateOne cfg timeNow st me).bind fun r =>
      (clockUpdateLoop cfg timeNow rest r.1).map fun s => (s.1, r.2 ++ s.2)

/-- `HoverManager._dispatch_from_clock`: batch, then dispatch the batch. -/
def dispatchFromClock {W : Type} (cfg : Config W) (timeNow : Int)
    (st : MState W) : Option (MState W × List TraceItem) :=
  (collectStale cfg timeNow st.times st.heap st.events).bind fun batch =>
    clockUpdateLoop cfg timeNow batch st

/-! ### `HoverBehavior` (widget mixin) -/

/-- The widget data `HoverBehavior.on_hover_event` consults: identity,
bounding box (`collide_point` uses `x <= px <= right`), `disabled`. -/
structure HWidget where
  wid : Nat
  x : Int
  y : Int
  width : Int
  height : Int
  disabled : Bool
deriving DecidableEq

/-- `Widget.collide_point`. -/
def HWidget.collidePoint (v : HWidget) (qx qy : Int) : Bool :=
  v.x ≤ qx && qx ≤ v.x + v.width && v.y ≤ qy && qy ≤ v.y + v.height

/-- Callbacks fired by `on_hover_event`. -/
inductive HCb where
  | enter (uid : Nat)
  | update (uid : Nat)
  | leave (uid : Nat)
deriving DecidableEq

/-- `HoverBehavior.on_hover_event`, acting on the widget's `hover_ids`
dictionary and the event.  Returns the new `hover_ids`, the mutated event, the
callbacks fired, and the accepted flag; `none` models the `KeyError` that
`self.hover_ids.pop(me.uid)` raises when the uid is absent. -/
def onHoverEvent (v : HWidget) (hover_ids : List (Nat × (Int × Int)))
    (etype : String) (me : Event) :
    Option (List (Nat × (Int × Int)) × Event × List HCb × Bool) :=
  if etype = "update" ∨ etype = "begin" then
    if me.grab_current = some v.wid then
      some (hover_ids, me, [], true)
    else if v.disabled && v.collidePoint me.x me.y then
      some (hover_ids, me, [], true)
    else if v.collidePoint me.x me.y then
      let me1 := me.grab v.wid
      match getK hover_ids me1.uid with
      | none =>
        some (setK hover_ids me1.uid me1.pos, me1, [HCb.enter me1.uid], true)
      | some p =>
        if p ≠ me1.pos then
          some (setK hover_ids me1.uid me1.pos, me1, [HCb.update me1.uid], true)
        else
          some (hover_ids, me1, [], true)
    else
      some (hover_ids, me, [], false)
  else if etype = "end" then
    if me.grab_current = some v.wid then
      match delK hover_ids me.uid with
      | none => none
      | some h1 => some (h1, me.ungrab v.wid, [HCb.leave me.uid], true)
    else if v.disabled && v.collidePoint me.x me.y then
      some (hover_ids, me, [], true)
    else
      some (hover_ids, me, [], false)
  else
    some (hover_ids, me, [], false)

/-- A hover event as delivered to a single widget: uid, `grab_current`, and
position; every other field at a fixed neutral value. -/
def mkMe (uid : Nat) (gc : Option Nat) (p : Int × Int) : Event :=
  { uid := uid, x := p.1, y := p.2, sx := 0, sy := 0, sz := 0,
    psx := 0, psy := 0, psz := 0, dsx := 0, dsy := 0, dsz := 0,
    grab_list := [], grab_current := gc, grab_state := false,
    time_end := 0, stack := [] }

/-- A sequence of deliveries to one widget: each input is
`(etype, grab_current, position)` for one `on_hover_event` call on the same
event uid; the widget's `hover_ids` threads through, the callbacks accumulate. -/
def hoverSeq (v : HWidget) (uid : Nat) :
    List (String × Option Nat × (Int × Int)) → List (Nat × (Int × Int)) →
    Option (List (Nat × (Int × Int)) × List HCb)
  | [], h => some (h, [])
  | (et, gc, p) :: rest, h =>
    match onHoverEvent v h et (mkMe uid gc p) with
    | none => none
    | some (h1, _, cbs, _) =>
      match hoverSeq v uid rest h1 with
      | none => none
      | some (h2, cbs2) => some (h2, cbs ++ cbs2)

/-! ### The closed loop: `HoverManager` driving `HoverBehavior` widgets -/

/-- The widget world for the composed system: every widget's `hover_ids`
dictionary, plus an error flag recording whether any `hover_ids.pop(me.uid)`
raised `KeyError`. -/
structure HWorld where
  tbl : List (Nat × List (Nat × (Int × Int)))
  err : Bool
deriving DecidableEq

/-- `on_motion` of a childless `HoverBehavior` widget (the tree walk delivers
to top-level widgets; a childless widget in `'default'` mode reduces to its
`on_hover_event`).  An id with no widget spec ignores the event; a `KeyError`
raised by `on_hover_event` sets the error flag. -/
def hoverWorldBeh (specs : List HWidget) (wld : HWorld) (v : Nat)
    (etype : String) (me : Event) : HWorld × Event × Bool :=
  match specs.find? (fun s => s.wid == v) with
  | none => (wld, me, false)
  | some spec =>
    match onHoverEvent spec (getD wld.tbl v []) etype me with
    | none => ({ wld with err := true }, me, false)
    | some (h1, me1, _, acc) =>
      ({ wld with tbl := setK wld.tbl v h1 }, me1, acc)

/-- A manager configuration whose widgets are `HoverBehavior` widgets given by
`specs`; the remaining collaborators (children order, liveness, roots,
transforms, timeout) stay arbitrary. -/
def hoverCfg (specs : List HWidget) (children : List Nat) (alive : Nat → Bool)
    (rootWin : Nat → Option Nat) (transformW : Int × Int → Int × Int)
    (transformWidget : Nat → Int × Int → Option (Int × Int))
    (timeout : Int) : Config HWorld :=
  { children := children, beh := hoverWorldBeh specs, alive := alive,
    rootWin := rootWin, transformW := transformW,
    transformWidget := transformWidget, event_repeat_timeout := timeout }

/-- The trace item "widget `v` received a direct (synthetic) `"end"` delivery
for event uid `uid`, with `grab_current` set to `v`". -/
def isDirectEndU (v uid : Nat) : TraceItem → Bool
  | TraceItem.directDelivery v' et u gc =>
    v' == v && et == "end" && u == uid && gc == some v
  | _ => false

/-- Any direct delivery to widget `v` (used to state that a widget receives
nothing). -/
def isDirectTo (v : Nat) : TraceItem → Bool
  | TraceItem.directDelivery v' _ _ _ => v' == v
  | _ => false

/-- A tiny concrete configuration used by witnesses: no children, inert
widgets, widget 1's transform always fails, every other transform succeeds. -/
def cfgW : Config Unit :=
  { children := [], beh := fun u _ _ e => (u, e, false), alive := fun _ => true,
    rootWin := fun _ => some 9, transformW := id,
    transformWidget := fun v p => if v = 1 then none else some p,
    event_repeat_timeout := 1 }

/-- Invariant of the closed loop (manager + `HoverBehavior` widgets): the
`KeyError` flag is clear, and every widget stored in any ledger snapshot for
event id `k` holds `k` in its `hover_ids` (snapshots are duplicate-free). -/
def HInv (st : MState HWorld) : Prop :=
  st.world.err = false ∧ KeysND st.events ∧
  ∀ p ∈ st.events, ∀ snap ∈ p.2, snap.Nodup ∧
    ∀ v ∈ snap, (getK (getD st.world.tbl v []) p.1).isSome

/-- The uid carried by a `clockDispatch` trace item. -/
def clockUid : TraceItem → Option Nat
  | TraceItem.clockDispatch e => some e.uid
  | _ => none

/-! ## Lemma kit: dictionaries -/

theorem getK_setK_self {α : Type} (l : List (Nat × α)) (k : Nat) (v : α) :
    getK (setK l k v) k = some v := by
  induction l with
  | nil => simp [setK, getK]
  | cons p t ih =>
    by_cases h : p.1 = k
    · simp [setK, h, getK]
    · simp [setK, h, getK, ih]

theorem getK_setK_ne {α : Type} (l : List (Nat × α)) (k k' : Nat) (v : α)
    (h : k' ≠ k) : getK (setK l k v) k' = getK l k' := by
  induction l with
  | nil => simp [setK, getK, Ne.symm h]
  | cons p t ih =>
    by_cases hp : p.1 = k
    · simp only [setK, if_pos hp]
      simp [getK, Ne.symm h, hp]
    · simp only [setK, if_neg hp]
      by_cases hp' : p.1 = k'
      · simp [getK, hp']
      · simp [getK, hp', ih]

theorem not_mem_of_getK_eq_none {α : Type} (l : List (Nat × α)) (k : Nat)
    (h : getK l k = none) : ∀ v, (k, v) ∉ l := by
  induction l with
  | nil => simp
  | cons p t ih =>
    intro v hv
    by_cases hp : p.1 = k
    · simp [getK, hp] at h
    · rcases List.mem_cons.mp hv with h1 | h1
      · exact hp (by rw [← h1])
      · simp [getK, hp] at h
        exact ih h v h1

theorem delK_isSome_of_getK {α : Type} (l : List (Nat × α)) (k : Nat)
    (h : (getK l k).isSome) : (delK l k).isSome := by
  induction l with
  | nil => simp [getK] at h
  | cons p t ih =>
    by_cases hp : p.1 = k
    · simp [delK, hp]
    · simp [getK, hp] at h
      simp [delK, hp, Option.isSome_map]
      exact ih h

theorem delK_setK_absent {α : Type} (l : List (Nat × α)) (k : Nat) (v : α)
    (h : getK l k = none) : delK (setK l k v) k = some l := by
  induction l with
  | nil => simp [setK, delK]
  | cons p t ih =>
    by_cases hp : p.1 = k
    · simp [getK, hp] at h
    · simp [getK, hp] at h
      simp [setK, hp, delK, ih h]

theorem getK_of_delK_ne {α : Type} (l l' : List (Nat × α)) (k k' : Nat)
    (h : delK l k = some l') (hne : k' ≠ k) : getK l' k' = getK l k' := by
  induction l generalizing l' with
  | nil => simp [delK] at h
  | cons p t ih =>
    by_cases hp : p.1 = k
    · simp [delK, hp] at h
      subst h
      simp [getK, hp ▸ (Ne.symm hne)]
    · simp only [delK, hp, if_false, Option.map_eq_some'] at h
      rcases h with ⟨r, hr, hl'⟩
      subst hl'
      by_cases hp' : p.1 = k'
      · simp [getK, hp']
      · simp [getK, hp', ih r hr]

theorem mem_of_getK_eq_some {α : Type} (l : List (Nat × α)) (k : Nat) (v : α)
    (h : getK l k = some v) : (k, v) ∈ l := by
  induction l with
  | nil => simp [getK] at h
  | cons q t ih =>
    by_cases hq : q.1 = k
    · simp [getK, hq] at h
      have hqe : (k, v) = q := by
        rw [← hq, ← h]
      rw [hqe]
      exact List.mem_cons_self _ _
    · simp [getK, hq] at h
      exact List.mem_cons_of_mem _ (ih h)

theorem getK_delK_self {α : Type} (l l' : List (Nat × α)) (k : Nat)
    (hnd : KeysND l) (h : delK l k = some l') : getK l' k = none := by
  induction l generalizing l' with
  | nil => simp [delK] at h
  | cons p t ih =>
    rcases List.nodup_cons.mp hnd with ⟨hnot, hnd2⟩
    by_cases hp : p.1 = k
    · simp only [delK, if_pos hp, Option.some.injEq] at h
      cases hg : getK l' k with
      | none => rfl
      | some v =>
        exfalso
        apply hnot
        have hm := mem_of_getK_eq_some l' k v hg
        rw [← h] at hm
        rw [hp]
        exact List.mem_map.mpr ⟨(k, v), hm, rfl⟩
    · simp only [delK, if_neg hp, Option.map_eq_some'] at h
      rcases h with ⟨r, hr, hl'⟩
      rw [← hl']
      simp [getK, hp]
      exact ih r hnd2 hr

theorem mem_setK {α : Type} (l : List (Nat × α)) (k : Nat) (v : α)
    (q : Nat × α) (h : q ∈ setK l k v) : q ∈ l ∨ q = (k, v) := by
  induction l with
  | nil =>
    simp [setK] at h
    right
    exact h
  | cons a s ih =>
    by_cases ha : a.1 = k
    · simp only [setK, if_pos ha] at h
      rcases List.mem_cons.mp h with h1 | h1
      · right; exact h1
      · left; exact List.mem_cons_of_mem _ h1
    · simp only [setK, if_neg ha] at h
      rcases List.mem_cons.mp h with h1 | h1
      · left; rw [h1]; exact List.mem_cons_self _ _
      · rcases ih h1 with h2 | h2
        · left; exact List.mem_cons_of_mem _ h2
        · right; exact h2

theorem keysND_setK {α : Type} (l : List (Nat × α)) (k : Nat) (v : α)
    (hnd : KeysND l) : KeysND (setK l k v) := by
  induction l with
  | nil => simp [setK, KeysND]
  | cons p t ih =>
    rcases List.nodup_cons.mp hnd with ⟨hnot, hnd2⟩
    by_cases hp : p.1 = k
    · simp only [setK, if_pos hp]
      refine List.nodup_cons.mpr ⟨?_, hnd2⟩
      rw [← hp]
      exact hnot
    · simp only [setK, if_neg hp]
      refine List.nodup_cons.mpr ⟨?_, ih hnd2⟩
      intro hmem
      rcases List.mem_map.mp hmem with ⟨q, hq, hq1⟩
      rcases mem_setK t k v q hq with h2 | h2
      · exact hnot (List.mem_map.mpr ⟨q, h2, hq1⟩)
      · apply hp
        rw [← hq1, h2]

theorem getK_isSome_of_mem {α : Type} (l : List (Nat × α)) (p : Nat × α)
    (h : p ∈ l) : (getK l p.1).isSome := by
  induction l with
  | nil => simp at h
  | cons q t ih =>
    by_cases hq : q.1 = p.1
    · simp [getK, hq]
    · rcases List.mem_cons.mp h with h1 | h1
      · exact absurd (by rw [h1]) hq
      · simp [getK, hq]
        exact ih h1

/-! ## Lemma kit: events -/

theorem Event.pop_push (me : Event) : me.push.pop = me := by
  simp [Event.push, Event.pop]

theorem Event.pop_push_xy (me : Event) (a b : Int) :
    ({ me.push with x := a, y := b } : Event).pop = me := by
  simp [Event.push, Event.pop]

theorem Event.uid_pop (me : Event) : me.pop.uid = me.uid := by
  unfold Event.pop
  cases me.stack with
  | nil => rfl
  | cons p r => rfl

theorem Event.uid_push (me : Event) : me.push.uid = me.uid := rfl

/-! ## Lemma kit: uid preservation through the manager -/

variable {W : Type}

theorem walkWidgets_uid (cfg : Config W) (etype : String)
    (hb : BehPreservesUid cfg) (l : List Nat) (w : W) (me : Event) :
    ((walkWidgets cfg etype l w me).2.1).uid = me.uid := by
  induction l generalizing w me with
  | nil => rfl
  | cons c rest ih =>
    simp only [walkWidgets]
    split
    · exact hb w c etype me
    · rw [ih]
      exact hb w c etype me

theorem dispatchToWidgets_uid (cfg : Config W) (etype : String)
    (hb : BehPreservesUid cfg) (w : W) (me : Event) :
    ((dispatchToWidgets cfg etype w me).2.1).uid = me.uid := by
  simp only [dispatchToWidgets]
  rw [Event.uid_pop, walkWidgets_uid cfg etype hb]
  rfl

theorem deliverToWidget_uid (cfg : Config W) (etype : String)
    (hb : BehPreservesUid cfg) (w : W) (me : Event) (v : Nat) :
    ((deliverToWidget cfg etype w me v).2.1).uid = me.uid := by
  simp only [deliverToWidget]
  exact hb w v etype _

theorem dispatchToWidget_uid (cfg : Config W) (etype : String)
    (hb : BehPreservesUid cfg) (w : W) (me : Event) (v : Nat) :
    ((dispatchToWidget cfg etype w me v).2.1).uid = me.uid := by
  simp only [dispatchToWidget]
  split
  · split
    · simp [Event.uid_pop, Event.push]
    · rw [Event.uid_pop]
      rw [deliverToWidget_uid cfg etype hb]
      rfl
  · exact deliverToWidget_uid cfg etype hb w me v

theorem reconcileLoop_uid (cfg : Config W) (curList : List Nat)
    (hb : BehPreservesUid cfg) (l : List Nat) (w : W) (me : Event) :
    ((reconcileLoop cfg curList l w me).2.1).uid = me.uid := by
  induction l generalizing w me with
  | nil => rfl
  | cons v rest ih =>
    simp only [reconcileLoop]
    split
    · exact ih w me
    · split
      · rw [ih, dispatchToWidget_uid cfg "end" hb]
      · exact ih w me

theorem dispatchToGrabbedWidgets_uid (cfg : Config W) (now : Int)
    (hb : BehPreservesUid cfg) (w : W) (me : Event) (prev : List Nat) :
    ((dispatchToGrabbedWidgets cfg now w me prev).2.1).uid = me.uid := by
  simp only [dispatchToGrabbedWidgets]
  rw [reconcileLoop_uid cfg me.grab_list hb]
  rfl

/-! ## Claim C2 -/

/-- C2: on every control path on which `dispatch` returns, the caller observes
`me.grab_list` unchanged (snapshotted and cleared at entry, written back before
return); likewise `_dispatch_to_grabbed_widgets` restores `grab_list`,
`grab_state` and `time_end` to their prior values before it returns. -/
theorem c2_grab_list_restored (cfg : Config W) (now : Int) (etype : String)
    (st : MState W) (me : Event) (st' : MState W) (me' : Event) (acc : Bool)
    (tr : List TraceItem)
    (h : dispatch cfg now etype st me = some (st', me', acc, tr)) :
    me'.grab_list = me.grab_list ∧
    ∀ (w : W) (e : Event) (prev : List Nat),
      ((dispatchToGrabbedWidgets cfg now w e prev).2.1).grab_list = e.grab_list ∧
      ((dispatchToGrabbedWidgets cfg now w e prev).2.1).grab_state = e.grab_state ∧
      ((dispatchToGrabbedWidgets cfg now w e prev).2.1).time_end = e.time_end := by
  constructor
  · simp only [dispatch, Option.map_eq_some'] at h
    rcases h with ⟨p, _, heq⟩
    simp only [Prod.mk.injEq] at heq
    rcases heq with ⟨_, h2, _, _⟩
    rw [← h2]
  · intro w e prev
    exact ⟨rfl, rfl, rfl⟩

/-- Witness for C2: a concrete dispatch run. -/
theorem c2_witness :
    (mkMe 3 none (1, 1)).grab_list = (mkMe 3 none (1, 1)).grab_list ∧
    ∀ (w : Unit) (e : Event) (prev : List Nat),
      ((dispatchToGrabbedWidgets
          (Config.mk [] (fun u _ _ e => (u, e, false)) (fun _ => true)
            (fun _ => none) id (fun _ p => some p) 1) 0 w e prev).2.1).grab_list
        = e.grab_list ∧
      ((dispatchToGrabbedWidgets
          (Config.mk [] (fun u _ _ e => (u, e, false)) (fun _ => true)
            (fun _ => none) id (fun _ p => some p) 1) 0 w e prev).2.1).grab_state
        = e.grab_state ∧
      ((dispatchToGrabbedWidgets
          (Config.mk [] (fun u _ _ e => (u, e, false)) (fun _ => true)
            (fun _ => none) id (fun _ p => some p) 1) 0 w e prev).2.1).time_end
        = e.time_end := by
  have h :=
    c2_grab_list_restored
      (Config.mk [] (fun u _ _ e => (u, e, false)) (fun _ => true)
        (fun _ => none) id (fun _ p => some p) 1)
      0 "begin" (MState.mk [] [] [] false ()) (mkMe 3 none (1, 1))
      _ _ _ _ rfl
  exact ⟨h.1 ▸ rfl, h.2⟩

/-! ## Claim C7 -/

theorem walkWidgets_trace (cfg : Config W) (etype : String) (l : List Nat)
    (w : W) (me : Event) :
    ∀ t ∈ (walkWidgets cfg etype l w me).2.2.2,
      ∃ v e a, t = TraceItem.walkDelivery v e a := by
  induction l generalizing w me with
  | nil => intro t ht; simp [walkWidgets] at ht
  | cons c rest ih =>
    intro t ht
    simp only [walkWidgets] at ht
    split at ht
    · simp at ht
      exact ⟨c, etype, true, ht⟩
    · rcases List.mem_cons.mp ht with h1 | h1
      · exact ⟨c, etype, false, h1⟩
      · exact ih _ _ t h1

theorem dispatchToWidgets_trace (cfg : Config W) (etype : String)
    (w : W) (me : Event) :
    ∀ t ∈ (dispatchToWidgets cfg etype w me).2.2.2,
      ∃ v e a, t = TraceItem.walkDelivery v e a := by
  simp only [dispatchToWidgets]
  exact walkWidgets_trace cfg etype cfg.children w _

/-- C7: dispatching `"update"` or `"end"` for an event id with no ledger entry
(no prior `"begin"`) completes without raising: the missing previous state acts
as empty, no reconciliation delivery is synthesized (the trace holds only
tree-walk deliveries), and on `"end"` the freshly created ledger entries are
removed again before `dispatch` returns. -/
theorem c7_ledger_miss_safe (cfg : Config W) (now : Int) (etype : String)
    (st : MState W) (me : Event)
    (hb : BehPreservesUid cfg)
    (hnd : KeysND st.times)
    (hmiss : getK st.events me.uid = none)
    (het : etype = "update" ∨ etype = "end") :
    (dispatch cfg now etype st me).isSome ∧
    ∀ st' me' acc tr, dispatch cfg now etype st me = some (st', me', acc, tr) →
      (∀ t ∈ tr, ∃ v e a, t = TraceItem.walkDelivery v e a) ∧
      (etype = "end" →
        getK st'.events me.uid = none ∧ getK st'.times me.uid = none) := by
  rcases hrw : dispatchToWidgets cfg etype st.world { me with grab_list := [] }
    with ⟨w1, me1, acc1, tr1⟩
  have huid : me1.uid = me.uid := by
    have h0 := dispatchToWidgets_uid cfg etype hb st.world
      { me with grab_list := [] }
    rw [hrw] at h0
    exact h0
  have hgetD : getD st.events me1.uid [] = ([] : List (List Nat)) := by
    rw [huid]
    unfold getD
    rw [hmiss]
    rfl
  have hdel1 : delK (setK st.events me1.uid [me1.grab_list]) me1.uid
      = some st.events := by
    apply delK_setK_absent
    rw [huid]
    exact hmiss
  have hdel2 : (delK (setK st.times me1.uid now) me1.uid).isSome := by
    apply delK_isSome_of_getK
    rw [getK_setK_self]
    rfl
  rcases Option.isSome_iff_exists.mp hdel2 with ⟨t3, ht3⟩
  have ht3none : getK t3 me.uid = none := by
    have hnd2 := keysND_setK st.times me1.uid now hnd
    have h0 := getK_delK_self _ t3 _ hnd2 ht3
    rw [huid] at h0
    exact h0
  constructor
  · rcases het with he | he <;> subst he
    · simp [dispatch, hrw, hgetD]
    · simp [dispatch, hrw, hgetD, hdel1, ht3]
  · intro st' me' acc tr h
    have htr1 : ∀ t ∈ tr1, ∃ v e a, t = TraceItem.walkDelivery v e a := by
      have hw := dispatchToWidgets_trace cfg etype st.world
        { me with grab_list := [] }
      rw [hrw] at hw
      exact hw
    simp only [dispatch, hrw, hgetD] at h
    rw [if_neg (by simp : ¬([me1.grab_list].length = 2))] at h
    constructor
    · intro t ht
      rcases Option.map_eq_some'.mp h with ⟨p, _, heq⟩
      simp only [Prod.mk.injEq] at heq
      rcases heq with ⟨_, _, _, h4⟩
      rw [← h4] at ht
      rw [List.append_nil] at ht
      exact htr1 t ht
    · intro he
      subst he
      rw [if_pos rfl] at h
      rw [hdel1] at h
      simp only [Option.some_bind, ht3, Option.map_some'] at h
      simp only [Option.some.injEq, Prod.mk.injEq] at h
      rcases h with ⟨h1, _, _, _⟩
      rw [← h1]
      exact ⟨hmiss, ht3none⟩

/-- Witness for C7: an `"end"` dispatch for an untracked uid in an empty
manager. -/
theorem c7_witness :
    (dispatch (Config.mk [5] (fun u _ _ e => (u, e, true)) (fun _ => true)
        (fun _ => none) id (fun _ p => some p) 1)
      0 "end" (MState.mk [] [] [] false ()) (mkMe 3 none (1, 1))).isSome ∧
    ∀ st' me' acc tr,
      dispatch (Config.mk [5] (fun u _ _ e => (u, e, true)) (fun _ => true)
          (fun _ => none) id (fun _ p => some p) 1)
        0 "end" (MState.mk [] [] [] false ()) (mkMe 3 none (1, 1))
        = some (st', me', acc, tr) →
      (∀ t ∈ tr, ∃ v e a, t = TraceItem.walkDelivery v e a) ∧
      ("end" = "end" →
        getK st'.events (mkMe 3 none (1, 1)).uid = none ∧
        getK st'.times (mkMe 3 none (1, 1)).uid = none) :=
  c7_ledger_miss_safe _ 0 "end" _ _ (fun _ _ _ _ => rfl) List.nodup_nil rfl
    (Or.inr rfl)

/-! ## Claim C8 -/

/-- A failed per-widget transform aborts exactly that delivery: the pushed
state is popped, `on_motion` is not reached, and the event and widget world
are returned unchanged. -/
theorem dispatchToWidget_fail (cfg : Config W) (etype : String) (w : W)
    (me : Event) (v r : Nat)
    (hroot : cfg.rootWin v = some r) (hrv : r ≠ v)
    (hfail : ∀ pt, cfg.transformWidget v pt = none) :
    dispatchToWidget cfg etype w me v = (w, me, [TraceItem.transformFail v]) := by
  simp only [dispatchToWidget, hroot]
  rw [if_pos (by simp [hrv])]
  rw [hfail]
  rw [Event.pop_push]

/-- A successful direct delivery records exactly one `directDelivery` item,
with the event's uid and `grab_current` set to the target. -/
theorem dispatchToWidget_ok_trace (cfg : Config W) (etype : String) (w : W)
    (me : Event) (v : Nat)
    (hok : ∀ pt, (cfg.transformWidget v pt).isSome) :
    (dispatchToWidget cfg etype w me v).2.2
      = [TraceItem.directDelivery v etype me.uid (some v)] := by
  simp only [dispatchToWidget]
  split
  · rcases Option.isSome_iff_exists.mp (hok (me.push.x, me.push.y)) with ⟨p, hp⟩
    rw [hp]
    simp [deliverToWidget, Event.push]
  · simp [deliverToWidget]

theorem dispatch_isSome (cfg : Config W) (now : Int) (etype : String)
    (st : MState W) (me : Event) (hb : BehPreservesUid cfg) :
    (dispatch cfg now etype st me).isSome := by
  rcases hrw : dispatchToWidgets cfg etype st.world { me with grab_list := [] }
    with ⟨w1, me1, acc1, tr1⟩
  simp only [dispatch, hrw]
  by_cases hl : ((me1.grab_list :: getD st.events me1.uid []).length = 2)
  · rw [if_pos hl]
    rcases hg : dispatchToGrabbedWidgets cfg now w1 me1
        ((me1.grab_list :: getD st.events me1.uid []).getLastD [])
      with ⟨w2, me2, tr2⟩
    have hu2 : me2.uid = me1.uid := by
      have h0 := dispatchToGrabbedWidgets_uid cfg now hb w1 me1
        ((me1.grab_list :: getD st.events me1.uid []).getLastD [])
      rw [hg] at h0
      exact h0
    by_cases he : etype = "end"
    · subst he
      rw [if_pos rfl]
      have hd1 : (delK (setK (setK st.events me1.uid
          (me1.grab_list :: getD st.events me1.uid [])) me1.uid
          ((me1.grab_list :: getD st.events me1.uid []).dropLast)) me2.uid).isSome := by
        rw [hu2]
        apply delK_isSome_of_getK
        rw [getK_setK_self]
        rfl
      have hd2 : (delK (setK st.times me1.uid now) me2.uid).isSome := by
        rw [hu2]
        apply delK_isSome_of_getK
        rw [getK_setK_self]
        rfl
      rcases Option.isSome_iff_exists.mp hd1 with ⟨e3, he3⟩
      rcases Option.isSome_iff_exists.mp hd2 with ⟨t3, ht3⟩
      simp [he3, ht3]
    · rw [if_neg he]
      simp
  · rw [if_neg hl]
    by_cases he : etype = "end"
    · subst he
      rw [if_pos rfl]
      have hd1 : (delK (setK st.events me1.uid
          (me1.grab_list :: getD st.events me1.uid [])) me1.uid).isSome := by
        apply delK_isSome_of_getK
        rw [getK_setK_self]
        rfl
      have hd2 : (delK (setK st.times me1.uid now) me1.uid).isSome := by
        apply delK_isSome_of_getK
        rw [getK_setK_self]
        rfl
      rcases Option.isSome_iff_exists.mp hd1 with ⟨e3, he3⟩
      rcases Option.isSome_iff_exists.mp hd2 with ⟨t3, ht3⟩
      simp [he3, ht3]
    · rw [if_neg he]
      simp

/-- C8: if the coordinate transform raises during a direct synthetic delivery
in `_dispatch_to_widget`, only that delivery is abandoned: the pushed state is
popped (event returned exactly as it came, `on_motion` not invoked), the
reconciliation loop continues with the remaining widgets of the previous grab
list exactly as if the failed widget were not there (apart from the recorded
failure), and the enclosing `dispatch` still returns normally. -/
theorem c8_transform_fail_local (cfg : Config W) (now : Int) (w : W)
    (me : Event) (v r : Nat) (rest : List Nat) (cur : List Nat)
    (hroot : cfg.rootWin v = some r) (hrv : r ≠ v)
    (hfail : ∀ pt, cfg.transformWidget v pt = none) :
    dispatchToWidget cfg "end" w me v = (w, me, [TraceItem.transformFail v]) ∧
    (v ∉ cur → cfg.alive v = true →
      reconcileLoop cfg cur (v :: rest) w me =
        ((reconcileLoop cfg cur rest w me).1,
         (reconcileLoop cfg cur rest w me).2.1,
         TraceItem.transformFail v :: (reconcileLoop cfg cur rest w me).2.2)) ∧
    (∀ (etype : String) (st : MState W), BehPreservesUid cfg →
      (dispatch cfg now etype st me).isSome) := by
  have hfd := dispatchToWidget_fail cfg "end" w me v r hroot hrv hfail
  refine ⟨hfd, ?_, ?_⟩
  · intro hnc hal
    simp only [reconcileLoop, if_neg hnc, hal, hfd]
    simp
  · intro etype st hb
    exact dispatch_isSome cfg now etype st me hb

/-- Witness for C8: widget 1's transform always fails; widget 2 still gets its
synthetic end and dispatch returns. -/
theorem c8_witness :
    (dispatchToWidget cfgW "end" () (mkMe 3 none (1, 1)) 1
      = ((), mkMe 3 none (1, 1), [TraceItem.transformFail 1])) ∧
    ((1 : Nat) ∉ ([] : List Nat) → cfgW.alive 1 = true →
      reconcileLoop cfgW [] (1 :: [2]) () (mkMe 3 none (1, 1)) =
        ((reconcileLoop cfgW [] [2] () (mkMe 3 none (1, 1))).1,
         (reconcileLoop cfgW [] [2] () (mkMe 3 none (1, 1))).2.1,
         TraceItem.transformFail 1 ::
           (reconcileLoop cfgW [] [2] () (mkMe 3 none (1, 1))).2.2)) ∧
    (∀ (etype : String) (st : MState Unit), BehPreservesUid cfgW →
      (dispatch cfgW 0 etype st (mkMe 3 none (1, 1))).isSome) :=
  c8_transform_fail_local cfgW 0 () (mkMe 3 none (1, 1)) 1 9 [2] [] rfl
    (by decide) (fun pt => rfl)

/-! ## Claim C1 -/

theorem walkWidgets_count_zero (cfg : Config W) (etype : String)
    (l : List Nat) (w : W) (me : Event) (v u : Nat) :
    ((walkWidgets cfg etype l w me).2.2.2).countP (isDirectEndU v u) = 0 := by
  rw [List.countP_eq_zero]
  intro t ht
  rcases walkWidgets_trace cfg etype l w me t ht with ⟨v', e', a', h⟩
  subst h
  simp [isDirectEndU]

/-- Counting synthetic `"end"` deliveries in the reconciliation loop: with all
per-widget transforms succeeding, a widget receives exactly one when it is in
the previous grab list, out of the current one, and alive — and none
otherwise. -/
theorem reconcileLoop_count (cfg : Config W) (curList : List Nat)
    (hb : BehPreservesUid cfg)
    (htr : ∀ v pt, (cfg.transformWidget v pt).isSome) :
    ∀ (prev : List Nat) (w : W) (me : Event) (v : Nat), prev.Nodup →
      ((reconcileLoop cfg curList prev w me).2.2).countP (isDirectEndU v me.uid)
        = if v ∈ prev ∧ v ∉ curList ∧ cfg.alive v then 1 else 0 := by
  intro prev
  induction prev with
  | nil =>
    intro w me v _
    simp [reconcileLoop]
  | cons u rest ih =>
    intro w me v hnd
    rcases List.nodup_cons.mp hnd with ⟨hu, hnd2⟩
    by_cases hc : u ∈ curList
    · rw [reconcileLoop, if_pos hc]
      rw [ih w me v hnd2]
      by_cases hv : v = u
      · subst hv
        simp [hc, fun h => hu h]
      · simp [hv]
    · by_cases ha : cfg.alive u
      · rw [reconcileLoop, if_neg hc, if_pos ha]
        rcases hdw : dispatchToWidget cfg "end" w me u with ⟨w1, me1, tr1⟩
        have hu1 : me1.uid = me.uid := by
          have h0 := dispatchToWidget_uid cfg "end" hb w me u
          rw [hdw] at h0
          exact h0
        have htr1 : tr1 = [TraceItem.directDelivery u "end" me.uid (some u)] := by
          have h0 := dispatchToWidget_ok_trace cfg "end" w me u (htr u)
          rw [hdw] at h0
          exact h0
        dsimp only
        rw [List.countP_append]
        rw [htr1]
        have hrec := ih w1 me1 v hnd2
        rw [hu1] at hrec
        rw [hrec]
        by_cases hv : v = u
        · subst hv
          have hvr : v ∉ rest := hu
          simp [isDirectEndU, hc, ha, hvr]
        · simp [isDirectEndU, Ne.symm hv, hv]
      · rw [reconcileLoop, if_neg hc, if_neg ha]
        rw [ih w me v hnd2]
        by_cases hv : v = u
        · subst hv
          simp [ha, fun h => hu h]
        · simp [hv]

/-- C1: when `dispatch` runs for an event whose ledger already holds a previous
grab-list snapshot, every widget of that snapshot that is absent from the
post-walk grab list and still alive receives exactly one synthetic `"end"`
direct delivery (with `grab_current` set to it) before `dispatch` returns;
widgets still present in the current grab list receive none.  (Per-widget
transforms are assumed to succeed; a failing transform skips its delivery, see
C8.) -/
theorem c1_stale_grab_end_exactly_once (cfg : Config W) (now : Int)
    (etype : String) (st : MState W) (me : Event) (prevSnap : List Nat)
    (hb : BehPreservesUid cfg)
    (htr : ∀ v pt, (cfg.transformWidget v pt).isSome)
    (hstored : getD st.events me.uid [] = [prevSnap])
    (hnd : prevSnap.Nodup) :
    ∀ st' me' acc tr, dispatch cfg now etype st me = some (st', me', acc, tr) →
      ∀ v ∈ prevSnap,
        (v ∉ ((dispatchToWidgets cfg etype st.world
              { me with grab_list := [] }).2.1).grab_list →
          cfg.alive v →
          tr.countP (isDirectEndU v me.uid) = 1) ∧
        (v ∈ ((dispatchToWidgets cfg etype st.world
              { me with grab_list := [] }).2.1).grab_list →
          tr.countP (isDirectEndU v me.uid) = 0) := by
  intro st' me' acc tr h v hv
  rcases hrw : dispatchToWidgets cfg etype st.world { me with grab_list := [] }
    with ⟨w1, me1, acc1, tr1⟩
  have huid : me1.uid = me.uid := by
    have h0 := dispatchToWidgets_uid cfg etype hb st.world
      { me with grab_list := [] }
    rw [hrw] at h0
    exact h0
  have hgetD : getD st.events me1.uid [] = [prevSnap] := by
    rw [huid, hstored]
  have htra : tr = tr1 ++
      ((dispatchToGrabbedWidgets cfg now w1 me1 prevSnap).2.2) := by
    simp only [dispatch, hrw, hgetD] at h
    rw [if_pos (by simp)] at h
    have hlast : ([me1.grab_list, prevSnap].getLastD []) = prevSnap := rfl
    rw [hlast] at h
    rcases Option.map_eq_some'.mp h with ⟨p, _, heq⟩
    simp only [Prod.mk.injEq] at heq
    exact heq.2.2.2.symm
  have hcnt0 : tr1.countP (isDirectEndU v me.uid) = 0 := by
    have h0 := walkWidgets_count_zero cfg etype cfg.children st.world
      ({ { me with grab_list := [] }.push with
          x := (cfg.transformW ({ me with grab_list := [] }.push.x,
            { me with grab_list := [] }.push.y)).1,
          y := (cfg.transformW ({ me with grab_list := [] }.push.x,
            { me with grab_list := [] }.push.y)).2 } : Event) v me.uid
    have h1 : (walkWidgets cfg etype cfg.children st.world
        ({ { me with grab_list := [] }.push with
            x := (cfg.transformW ({ me with grab_list := [] }.push.x,
              { me with grab_list := [] }.push.y)).1,
            y := (cfg.transformW ({ me with grab_list := [] }.push.x,
              { me with grab_list := [] }.push.y)).2 } : Event)).2.2.2 = tr1 := by
      have h5 := congrArg (fun r => r.2.2.2) hrw
      simpa [dispatchToWidgets] using h5
    rw [h1] at h0
    exact h0
  have hcnt : ((dispatchToGrabbedWidgets cfg now w1 me1 prevSnap).2.2).countP
      (isDirectEndU v me.uid)
      = if v ∈ prevSnap ∧ v ∉ me1.grab_list ∧ cfg.alive v then 1 else 0 := by
    simp only [dispatchToGrabbedWidgets]
    have h0 := reconcileLoop_count cfg me1.grab_list hb htr prevSnap w1
      ({ { me1 with grab_list := prevSnap }.update_time_end now with
          grab_state := true } : Event) v hnd
    have h1 : ({ { me1 with grab_list := prevSnap }.update_time_end now with
        grab_state := true } : Event).uid = me1.uid := rfl
    rw [h1] at h0
    rw [show me.uid = me1.uid from huid.symm]
    exact h0
  rw [htra, List.countP_append, hcnt0, hcnt]
  constructor
  · intro hnc hal
    have hnc2 : v ∉ me1.grab_list := by simpa using hnc
    simp [hv, hnc2, hal]
  · intro hc
    have hc2 : v ∈ me1.grab_list := by simpa using hc
    simp [hc2]

/-- A concrete configuration for witnesses whose transforms all succeed. -/
theorem c1_witness :
    ((4 : Nat) ∉ ((dispatchToWidgets
          (Config.mk [] (fun (u : Unit) _ _ e => (u, e, false))
            (fun _ => true) (fun _ => some 9) id (fun _ p => some p) 1)
          "update" ()
          { mkMe 3 none (1, 1) with grab_list := [] }).2.1).grab_list →
      (Config.mk [] (fun (u : Unit) _ _ e => (u, e, false)) (fun _ => true)
        (fun _ => some 9) id (fun _ p => some p) 1).alive 4 = true →
      (((dispatch
          (Config.mk [] (fun (u : Unit) _ _ e => (u, e, false))
            (fun _ => true) (fun _ => some 9) id (fun _ p => some p) 1)
          0 "update" (MState.mk [(3, [[4]])] [] [] false ())
          (mkMe 3 none (1, 1))).get (by decide)).2.2.2).countP
        (isDirectEndU 4 (mkMe 3 none (1, 1)).uid) = 1) ∧
    ((4 : Nat) ∈ ((dispatchToWidgets
          (Config.mk [] (fun (u : Unit) _ _ e => (u, e, false))
            (fun _ => true) (fun _ => some 9) id (fun _ p => some p) 1)
          "update" ()
          { mkMe 3 none (1, 1) with grab_list := [] }).2.1).grab_list →
      (((dispatch
          (Config.mk [] (fun (u : Unit) _ _ e => (u, e, false))
            (fun _ => true) (fun _ => some 9) id (fun _ p => some p) 1)
          0 "update" (MState.mk [(3, [[4]])] [] [] false ())
          (mkMe 3 none (1, 1))).get (by decide)).2.2.2).countP
        (isDirectEndU 4 (mkMe 3 none (1, 1)).uid) = 0) := by
  have h := c1_stale_grab_end_exactly_once
    (Config.mk [] (fun (u : Unit) _ _ e => (u, e, false)) (fun _ => true)
      (fun _ => some 9) id (fun _ p => some p) 1)
    0 "update" (MState.mk [(3, [[4]])] [] [] false ()) (mkMe 3 none (1, 1))
    [4] (fun _ _ _ _ => rfl) (fun _ _ => rfl) rfl (by decide) _ _ _ _ rfl
    4 (by decide)
  exact h

/-! ## Claim C3 -/

theorem dispatchToWidget_trace_shape (cfg : Config W) (etype : String)
    (w : W) (me : Event) (v : Nat) :
    ∀ t ∈ (dispatchToWidget cfg etype w me v).2.2,
      t = TraceItem.transformFail v ∨
      ∃ u g, t = TraceItem.directDelivery v etype u g := by
  intro t ht
  simp only [dispatchToWidget] at ht
  split at ht
  · split at ht
    · simp at ht
      left
      exact ht
    · simp only [deliverToWidget] at ht
      simp at ht
      right
      exact ⟨_, _, ht⟩
  · simp only [deliverToWidget] at ht
    simp at ht
    right
    exact ⟨_, _, ht⟩

theorem reconcileLoop_trace_shape (cfg : Config W) (curList : List Nat) :
    ∀ (prev : List Nat) (w : W) (me : Event),
      ∀ t ∈ (reconcileLoop cfg curList prev w me).2.2,
        (∃ v, t = TraceItem.transformFail v) ∨
        ∃ v u g, t = TraceItem.directDelivery v "end" u g := by
  intro prev
  induction prev with
  | nil => intro w me t ht; simp [reconcileLoop] at ht
  | cons u rest ih =>
    intro w me t ht
    simp only [reconcileLoop] at ht
    split at ht
    · exact ih w me t ht
    · split at ht
      · dsimp only at ht
        rcases List.mem_append.mp ht with h1 | h1
        · rcases dispatchToWidget_trace_shape cfg "end" w me u t h1 with h2 | h2
          · exact Or.inl ⟨u, h2⟩
          · rcases h2 with ⟨a, b, h2⟩
            exact Or.inr ⟨u, a, b, h2⟩
        · exact ih _ _ t h1
      · exact ih w me t ht

/-- No `clockDispatch` item ever appears in a `dispatch` trace. -/
theorem dispatch_trace_no_clock (cfg : Config W) (now : Int) (etype : String)
    (st : MState W) (me : Event) (st' : MState W) (me' : Event) (acc : Bool)
    (tr : List TraceItem)
    (h : dispatch cfg now etype st me = some (st', me', acc, tr)) :
    ∀ e, TraceItem.clockDispatch e ∉ tr := by
  intro e he
  rcases hrw : dispatchToWidgets cfg etype st.world { me with grab_list := [] }
    with ⟨w1, me1, acc1, tr1⟩
  simp only [dispatch, hrw] at h
  rcases Option.map_eq_some'.mp h with ⟨p, _, heq⟩
  simp only [Prod.mk.injEq] at heq
  rw [← heq.2.2.2] at he
  rcases List.mem_append.mp he with h1 | h1
  · have hw : ∀ t ∈ tr1, ∃ v e2 a, t = TraceItem.walkDelivery v e2 a := by
      have h0 := dispatchToWidgets_trace cfg etype st.world
        { me with grab_list := [] }
      rw [hrw] at h0
      exact h0
    rcases hw _ h1 with ⟨v, e2, a, hsh⟩
    simp at hsh
  · revert h1
    split
    · intro h1
      dsimp only at h1
      rcases reconcileLoop_trace_shape cfg me1.grab_list _ _ _ _ h1 with
        ⟨v, hsh⟩ | ⟨v, u2, g, hsh⟩ <;> simp at hsh
    · intro h1
      simp at h1

theorem collectStale_mem (cfg : Config W) (timeNow : Int)
    (times : List (Nat × Int)) (heap : List (Nat × Event)) :
    ∀ (l : List (Nat × List (List Nat))) (batch : List Event),
      collectStale cfg timeNow times heap l = some batch →
      ∀ me ∈ batch, ∃ k snaps, (k, snaps) ∈ l ∧ getK heap k = some me := by
  intro l
  induction l with
  | nil =>
    intro batch h me hme
    simp only [collectStale, Option.some.injEq] at h
    rw [← h] at hme
    simp at hme
  | cons p rest ih =>
    rcases p with ⟨uid, snaps⟩
    intro batch h me hme
    cases snaps with
    | nil => simp [collectStale] at h
    | cons s0 srest =>
      simp only [collectStale] at h
      rcases hh : getK heap uid with _ | me0
      · rw [hh] at h
        simp at h
      · rw [hh] at h
        simp only [Option.some_bind] at h
        rcases ht : getK times me0.uid with _ | t0
        · rw [ht] at h
          simp at h
        · rw [ht] at h
          simp only [Option.some_bind] at h
          rcases hr : collectStale cfg timeNow times heap rest with _ | l2
          · rw [hr] at h
            simp at h
          · rw [hr] at h
            simp only [Option.map_some', Option.some.injEq] at h
            rw [← h] at hme
            by_cases hc : timeNow - t0 < cfg.event_repeat_timeout
            · rw [if_pos hc] at hme
              rcases ih l2 hr me hme with ⟨k, sn, hmem, hg⟩
              exact ⟨k, sn, List.mem_cons_of_mem _ hmem, hg⟩
            · rw [if_neg hc] at hme
              rcases List.mem_cons.mp hme with h1 | h1
              · subst h1
                exact ⟨uid, s0 :: srest, List.mem_cons_self _ _, hh⟩
              · rcases ih l2 hr me h1 with ⟨k, sn, hmem, hg⟩
                exact ⟨k, sn, List.mem_cons_of_mem _ hmem, hg⟩

theorem clockUpdateLoop_trace (cfg : Config W) (timeNow : Int) :
    ∀ (batch : List Event) (st : MState W) (st2 : MState W)
      (tr : List TraceItem),
      clockUpdateLoop cfg timeNow batch st = some (st2, tr) →
      ∀ e, TraceItem.clockDispatch e ∈ tr → ∃ me ∈ batch, e.uid = me.uid := by
  intro batch
  induction batch with
  | nil =>
    intro st st2 tr h e he
    simp only [clockUpdateLoop, Option.some.injEq, Prod.mk.injEq] at h
    rw [← h.2] at he
    simp at he
  | cons me0 rest ih =>
    intro st st2 tr h e he
    simp only [clockUpdateLoop] at h
    rcases h1 : clockUpdateOne cfg timeNow st me0 with _ | r
    · rw [h1] at h
      simp at h
    · rw [h1] at h
      simp only [Option.some_bind] at h
      rcases h2 : clockUpdateLoop cfg timeNow rest r.1 with _ | s
      · rw [h2] at h
        simp at h
      · rw [h2] at h
        simp only [Option.map_some', Option.some.injEq, Prod.mk.injEq] at h
        rw [← h.2] at he
        rcases List.mem_append.mp he with hm | hm
        · -- item of the head update
          simp only [clockUpdateOne] at h1
          rcases h3 : dispatch cfg timeNow "update" st
            { me0 with psx := me0.sx, psy := me0.sy, psz := me0.sz,
                       dsx := 0, dsy := 0, dsz := 0 } with _ | d
          · rw [h3] at h1
            simp at h1
          · rw [h3] at h1
            simp only [Option.map_some', Option.some.injEq] at h1
            rw [← h1] at hm
            dsimp only at hm
            rcases List.mem_cons.mp hm with h4 | h4
            · have he2 : e = { me0 with psx := me0.sx, psy := me0.sy,
                                          psz := me0.sz, dsx := 0, dsy := 0,
                                          dsz := 0 } := by
                injection h4
              refine ⟨me0, List.mem_cons_self _ _, ?_⟩
              rw [he2]
            · exfalso
              exact dispatch_trace_no_clock cfg timeNow "update" st _
                d.1 d.2.1 d.2.2.1 d.2.2.2 (by rw [h3]) e h4
        · rcases ih r.1 s.1 s.2 (by rw [h2]) e hm with ⟨m2, hm2, hu⟩
          exact ⟨m2, List.mem_cons_of_mem _ hm2, hu⟩

/-- C3: after an `"end"` dispatch for uid X completes, neither `_events` nor
`_event_times` holds an entry for X, and a run of the idle-repeat tick on any
state without an entry for X issues no `clockDispatch` for X. -/
theorem c3_ledger_cleanup (cfg : Config W) (now : Int) (st : MState W)
    (me : Event)
    (hb : BehPreservesUid cfg)
    (hndE : KeysND st.events) (hndT : KeysND st.times) :
    (∀ st' me' acc tr, dispatch cfg now "end" st me = some (st', me', acc, tr) →
      getK st'.events me.uid = none ∧ getK st'.times me.uid = none) ∧
    (∀ (s s' : MState W) (timeNow : Int) (tr : List TraceItem),
      getK s.events me.uid = none →
      (∀ k e, getK s.heap k = some e → e.uid = k) →
      dispatchFromClock cfg timeNow s = some (s', tr) →
      ∀ e, TraceItem.clockDispatch e ∈ tr → e.uid ≠ me.uid) := by
  constructor
  · intro st' me' acc tr h
    rcases hrw : dispatchToWidgets cfg "end" st.world { me with grab_list := [] }
      with ⟨w1, me1, acc1, tr1⟩
    have huid : me1.uid = me.uid := by
      have h0 := dispatchToWidgets_uid cfg "end" hb st.world
        { me with grab_list := [] }
      rw [hrw] at h0
      exact h0
    simp only [dispatch, hrw] at h
    by_cases hl : ((me1.grab_list :: getD st.events me1.uid []).length = 2)
    · rw [if_pos hl] at h
      rcases hg : dispatchToGrabbedWidgets cfg now w1 me1
          ((me1.grab_list :: getD st.events me1.uid []).getLastD [])
        with ⟨w2, me2, tr2⟩
      have hu2 : me2.uid = me1.uid := by
        have h0 := dispatchToGrabbedWidgets_uid cfg now hb w1 me1
          ((me1.grab_list :: getD st.events me1.uid []).getLastD [])
        rw [hg] at h0
        exact h0
      rw [hg] at h
      dsimp only at h
      rcases hde : delK (setK (setK st.events me1.uid
          (me1.grab_list :: getD st.events me1.uid []))
          me1.uid ((me1.grab_list :: getD st.events me1.uid []).dropLast))
          me2.uid with _ | e3
      · rw [hde] at h
        simp at h
      · rw [hde] at h
        rcases hdt : delK (setK st.times me1.uid now) me2.uid with _ | t3
        · rw [hdt] at h
          simp at h
        · rw [hdt] at h
          simp only [Option.some_bind, Option.map_some'] at h
          injection h with hq
          injection hq with hq1 hq2
          subst hq1
          constructor
          · have hk := keysND_setK
              (setK st.events me1.uid (me1.grab_list :: getD st.events me1.uid []))
              me1.uid ((me1.grab_list :: getD st.events me1.uid []).dropLast)
              (keysND_setK st.events me1.uid
                (me1.grab_list :: getD st.events me1.uid []) hndE)
            have h2 := getK_delK_self _ e3 me2.uid hk hde
            rw [hu2, huid] at h2
            exact h2
          · have hk := keysND_setK st.times me1.uid now hndT
            have h2 := getK_delK_self _ t3 me2.uid hk hdt
            rw [hu2, huid] at h2
            exact h2
    · rw [if_neg hl] at h
      dsimp only at h
      rcases hde : delK (setK st.events me1.uid
          (me1.grab_list :: getD st.events me1.uid [])) me1.uid with _ | e3
      · rw [hde] at h
        simp at h
      · rw [hde] at h
        rcases hdt : delK (setK st.times me1.uid now) me1.uid with _ | t3
        · rw [hdt] at h
          simp at h
        · rw [hdt] at h
          simp only [Option.some_bind, Option.map_some'] at h
          injection h with hq
          injection hq with hq1 hq2
          subst hq1
          constructor
          · have hk := keysND_setK st.events me1.uid
              (me1.grab_list :: getD st.events me1.uid []) hndE
            have h2 := getK_delK_self _ e3 me1.uid hk hde
            rw [huid] at h2
            exact h2
          · have hk := keysND_setK st.times me1.uid now hndT
            have h2 := getK_delK_self _ t3 me1.uid hk hdt
            rw [huid] at h2
            exact h2
  · intro s s' timeNow tr hmiss hwf h e he
    simp only [dispatchFromClock] at h
    rcases hc : collectStale cfg timeNow s.times s.heap s.events with _ | batch
    · rw [hc] at h
      simp at h
    · rw [hc] at h
      simp only [Option.some_bind] at h
      rcases clockUpdateLoop_trace cfg timeNow batch s s' tr h e he
        with ⟨m2, hm2, hu⟩
      rcases collectStale_mem cfg timeNow s.times s.heap s.events batch hc
        m2 hm2 with ⟨k, snaps, hmem, hgk⟩
      have hk : m2.uid = k := hwf k m2 hgk
      intro hX
      have : (getK s.events k).isSome := getK_isSome_of_mem s.events (k, snaps) hmem
      rw [← hk, ← hu, hX, hmiss] at this
      simp at this

/-- Witness for C3: an `"end"` dispatch on a one-entry ledger followed by a
tick on the resulting empty state. -/
theorem c3_witness :
    (∀ st' me' acc tr,
      dispatch (Config.mk [] (fun (u : Unit) _ _ e => (u, e, false))
          (fun _ => true) (fun _ => some 9) id (fun _ p => some p) 1)
        0 "end" (MState.mk [(3, [[4]])] [(3, 0)] [] false ())
        (mkMe 3 none (1, 1)) = some (st', me', acc, tr) →
      getK st'.events (mkMe 3 none (1, 1)).uid = none ∧
      getK st'.times (mkMe 3 none (1, 1)).uid = none) ∧
    (∀ (s s' : MState Unit) (timeNow : Int) (tr : List TraceItem),
      getK s.events (mkMe 3 none (1, 1)).uid = none →
      (∀ k e, getK s.heap k = some e → e.uid = k) →
      dispatchFromClock (Config.mk [] (fun (u : Unit) _ _ e => (u, e, false))
          (fun _ => true) (fun _ => some 9) id (fun _ p => some p) 1)
        timeNow s = some (s', tr) →
      ∀ e, TraceItem.clockDispatch e ∈ tr → e.uid ≠ (mkMe 3 none (1, 1)).uid) :=
  c3_ledger_cleanup _ 0 (MState.mk [(3, [[4]])] [(3, 0)] [] false ())
    (mkMe 3 none (1, 1)) (fun _ _ _ _ => rfl) (by simp [KeysND])
    (by simp [KeysND])

/-! ## Claim C6 -/

theorem collectStale_uids_sublist (cfg : Config W) (timeNow : Int)
    (times : List (Nat × Int)) (heap : List (Nat × Event))
    (hwf : ∀ k e, getK heap k = some e → e.uid = k) :
    ∀ (l : List (Nat × List (List Nat))) (batch : List Event),
      collectStale cfg timeNow times heap l = some batch →
      List.Sublist (batch.map Event.uid) (l.map Prod.fst) := by
  intro l
  induction l with
  | nil =>
    intro batch h
    simp only [collectStale, Option.some.injEq] at h
    rw [← h]
    simp
  | cons p rest ih =>
    rcases p with ⟨uid, snaps⟩
    intro batch h
    cases snaps with
    | nil => simp [collectStale] at h
    | cons s0 srest =>
      simp only [collectStale] at h
      rcases hh : getK heap uid with _ | me0
      · rw [hh] at h
        simp at h
      · rw [hh] at h
        simp only [Option.some_bind] at h
        rcases ht : getK times me0.uid with _ | t0
        · rw [ht] at h
          simp at h
        · rw [ht] at h
          simp only [Option.some_bind] at h
          rcases hr : collectStale cfg timeNow times heap rest with _ | l2
          · rw [hr] at h
            simp at h
          · rw [hr] at h
            simp only [Option.map_some', Option.some.injEq] at h
            rw [← h]
            by_cases hc : timeNow - t0 < cfg.event_repeat_timeout
            · rw [if_pos hc]
              exact List.Sublist.cons _ (ih l2 hr)
            · rw [if_neg hc]
              simp only [List.map_cons]
              rw [hwf uid me0 hh]
              exact List.Sublist.cons₂ _ (ih l2 hr)

theorem clockUpdateLoop_uids (cfg : Config W) (timeNow : Int) :
    ∀ (batch : List Event) (st st2 : MState W) (tr : List TraceItem),
      clockUpdateLoop cfg timeNow batch st = some (st2, tr) →
      tr.filterMap clockUid = batch.map Event.uid := by
  intro batch
  induction batch with
  | nil =>
    intro st st2 tr h
    simp only [clockUpdateLoop, Option.some.injEq, Prod.mk.injEq] at h
    rw [← h.2]
    simp
  | cons me0 rest ih =>
    intro st st2 tr h
    simp only [clockUpdateLoop] at h
    rcases h1 : clockUpdateOne cfg timeNow st me0 with _ | r
    · rw [h1] at h
      simp at h
    · rw [h1] at h
      simp only [Option.some_bind] at h
      rcases h2 : clockUpdateLoop cfg timeNow rest r.1 with _ | s
      · rw [h2] at h
        simp at h
      · rw [h2] at h
        simp only [Option.map_some', Option.some.injEq, Prod.mk.injEq] at h
        rw [← h.2]
        rw [List.filterMap_append]
        have hr2 : r.2.filterMap clockUid = [me0.uid] := by
          simp only [clockUpdateOne] at h1
          rcases h3 : dispatch cfg timeNow "update" st
            { me0 with psx := me0.sx, psy := me0.sy, psz := me0.sz,
                       dsx := 0, dsy := 0, dsz := 0 } with _ | d
          · rw [h3] at h1
            simp at h1
          · rw [h3] at h1
            simp only [Option.map_some', Option.some.injEq] at h1
            rw [← h1]
            dsimp only
            rw [List.filterMap_cons]
            have hno : (d.2.2.2).filterMap clockUid = [] := by
              rw [List.filterMap_eq_nil_iff]
              intro t ht
              have := dispatch_trace_no_clock cfg timeNow "update" st _
                d.1 d.2.1 d.2.2.1 d.2.2.2 (by rw [h3])
              cases t with
              | clockDispatch e => exact absurd ht (this e)
              | walkDelivery a b c2 => rfl
              | directDelivery a b c2 d2 => rfl
              | transformFail a => rfl
            rw [hno]
            rfl
        rw [hr2, ih r.1 s.1 s.2 (by rw [h2])]
        rfl

/-- C6: within one run of `_dispatch_from_clock`, the batch of stale events is
computed in full before any dispatch is issued: the uids dispatched during the
tick are exactly the batch computed from the pre-tick state, each at most once
(an id refreshed by a dispatch during the tick is not re-considered). -/
theorem c6_tick_batched_once (cfg : Config W) (timeNow : Int) (st : MState W)
    (hnd : KeysND st.events)
    (hwf : ∀ k e, getK st.heap k = some e → e.uid = k) :
    ∀ st' tr, dispatchFromClock cfg timeNow st = some (st', tr) →
      ∃ batch,
        collectStale cfg timeNow st.times st.heap st.events = some batch ∧
        tr.filterMap clockUid = batch.map Event.uid ∧
        (tr.filterMap clockUid).Nodup := by
  intro st' tr h
  simp only [dispatchFromClock] at h
  rcases hc : collectStale cfg timeNow st.times st.heap st.events with _ | batch
  · rw [hc] at h
    simp at h
  · rw [hc] at h
    simp only [Option.some_bind] at h
    refine ⟨batch, rfl, ?_, ?_⟩
    · exact clockUpdateLoop_uids cfg timeNow batch st st' tr h
    · rw [clockUpdateLoop_uids cfg timeNow batch st st' tr h]
      exact List.Nodup.sublist
        (collectStale_uids_sublist cfg timeNow st.times st.heap hwf
          st.events batch hc) hnd

/-- Witness for C6: a two-entry ledger, one stale and one fresh. -/
theorem c6_witness :
    ∃ batch,
      collectStale (Config.mk [] (fun (u : Unit) _ _ e => (u, e, false))
          (fun _ => true) (fun _ => some 9) id (fun _ p => some p) 1)
        10
        (MState.mk [(3, [[4]]), (5, [[]])] [(3, 0), (5, 10)]
          [(3, mkMe 3 none (1, 1)), (5, mkMe 5 none (2, 2))] false ()).times
        (MState.mk [(3, [[4]]), (5, [[]])] [(3, 0), (5, 10)]
          [(3, mkMe 3 none (1, 1)), (5, mkMe 5 none (2, 2))] false ()).heap
        (MState.mk [(3, [[4]]), (5, [[]])] [(3, 0), (5, 10)]
          [(3, mkMe 3 none (1, 1)), (5, mkMe 5 none (2, 2))] false ()).events
        = some batch ∧
      (((dispatchFromClock (Config.mk []
            (fun (u : Unit) _ _ e => (u, e, false)) (fun _ => true)
            (fun _ => some 9) id (fun _ p => some p) 1) 10
          (MState.mk [(3, [[4]]), (5, [[]])] [(3, 0), (5, 10)]
            [(3, mkMe 3 none (1, 1)), (5, mkMe 5 none (2, 2))] false
            ())).get (by decide)).2).filterMap clockUid
        = batch.map Event.uid ∧
      ((((dispatchFromClock (Config.mk []
            (fun (u : Unit) _ _ e => (u, e, false)) (fun _ => true)
            (fun _ => some 9) id (fun _ p => some p) 1) 10
          (MState.mk [(3, [[4]]), (5, [[]])] [(3, 0), (5, 10)]
            [(3, mkMe 3 none (1, 1)), (5, mkMe 5 none (2, 2))] false
            ())).get (by decide)).2).filterMap clockUid).Nodup := by
  have h := c6_tick_batched_once (Config.mk []
      (fun (u : Unit) _ _ e => (u, e, false)) (fun _ => true)
      (fun _ => some 9) id (fun _ p => some p) 1) 10
    (MState.mk [(3, [[4]]), (5, [[]])] [(3, 0), (5, 10)]
      [(3, mkMe 3 none (1, 1)), (5, mkMe 5 none (2, 2))] false ())
    (by simp [KeysND])
    (by
      intro k e he
      simp only [getK] at he
      by_cases h3 : (3 : Nat) = k
      · rw [if_pos h3] at he
        rw [← h3]
        injection he with he2
        rw [← he2]
        rfl
      · rw [if_neg h3] at he
        by_cases h5 : (5 : Nat) = k
        · rw [if_pos h5] at he
          rw [← h5]
          injection he with he2
          rw [← he2]
          rfl
        · rw [if_neg h5] at he
          simp [getK] at he)
    _ _ rfl
  exact h

/-! ## Claim C4 -/

theorem dispatch_uid (cfg : Config W) (now : Int) (etype : String)
    (st : MState W) (me : Event) (st' : MState W) (me' : Event) (acc : Bool)
    (tr : List TraceItem) (hb : BehPreservesUid cfg)
    (h : dispatch cfg now etype st me = some (st', me', acc, tr)) :
    me'.uid = me.uid := by
  rcases hrw : dispatchToWidgets cfg etype st.world { me with grab_list := [] }
    with ⟨w1, me1, acc1, tr1⟩
  have huid : me1.uid = me.uid := by
    have h0 := dispatchToWidgets_uid cfg etype hb st.world
      { me with grab_list := [] }
    rw [hrw] at h0
    exact h0
  simp only [dispatch, hrw] at h
  rcases Option.map_eq_some'.mp h with ⟨p, _, heq⟩
  simp only [Prod.mk.injEq] at heq
  obtain ⟨_, h2, _, _⟩ := heq
  rw [← h2]
  by_cases hl : ((me1.grab_list :: getD st.events me1.uid []).length = 2)
  · rw [if_pos hl]
    show ((dispatchToGrabbedWidgets cfg now w1 me1
      ((me1.grab_list :: getD st.events me1.uid []).getLastD [])).2.1).uid
        = me.uid
    rw [dispatchToGrabbedWidgets_uid cfg now hb, huid]
  · rw [if_neg hl]
    exact huid

theorem dispatch_heap (cfg : Config W) (now : Int) (etype : String)
    (st : MState W) (me : Event) (st' : MState W) (me' : Event) (acc : Bool)
    (tr : List TraceItem)
    (h : dispatch cfg now etype st me = some (st', me', acc, tr)) :
    st'.heap = setK st.heap me'.uid me' := by
  rcases hrw : dispatchToWidgets cfg etype st.world { me with grab_list := [] }
    with ⟨w1, me1, acc1, tr1⟩
  simp only [dispatch, hrw] at h
  rcases Option.map_eq_some'.mp h with ⟨p, _, heq⟩
  simp only [Prod.mk.injEq] at heq
  obtain ⟨h1, h2, _, _⟩ := heq
  rw [← h1, ← h2]

theorem clockUpdateOne_heap (cfg : Config W) (timeNow : Int) (st : MState W)
    (me0 : Event) (st1 : MState W) (tr : List TraceItem)
    (hb : BehPreservesUid cfg)
    (h : clockUpdateOne cfg timeNow st me0 = some (st1, tr)) :
    (∃ ef, getK st1.heap me0.uid = some ef ∧ ef.psx = me0.psx ∧
      ef.psy = me0.psy ∧ ef.psz = me0.psz ∧ ef.dsx = me0.dsx ∧
      ef.dsy = me0.dsy ∧ ef.dsz = me0.dsz) ∧
    (∀ k, k ≠ me0.uid → getK st1.heap k = getK st.heap k) := by
  simp only [clockUpdateOne] at h
  rcases h3 : dispatch cfg timeNow "update" st
      { me0 with psx := me0.sx, psy := me0.sy, psz := me0.sz,
                 dsx := 0, dsy := 0, dsz := 0 } with _ | d
  · rw [h3] at h
    simp at h
  · rw [h3] at h
    simp only [Option.map_some', Option.some.injEq, Prod.mk.injEq] at h
    obtain ⟨h1, _⟩ := h
    have hu : d.2.1.uid = me0.uid := by
      have h4 := dispatch_uid cfg timeNow "update" st
        ({ me0 with psx := me0.sx, psy := me0.sy, psz := me0.sz,
                    dsx := 0, dsy := 0, dsz := 0 } : Event)
        d.1 d.2.1 d.2.2.1 d.2.2.2 hb (by rw [h3])
      exact h4
    have hh : d.1.heap = setK st.heap d.2.1.uid d.2.1 := by
      exact dispatch_heap cfg timeNow "update" st
        ({ me0 with psx := me0.sx, psy := me0.sy, psz := me0.sz,
                    dsx := 0, dsy := 0, dsz := 0 } : Event)
        d.1 d.2.1 d.2.2.1 d.2.2.2 (by rw [h3])
    have hh1 : st1.heap = setK d.1.heap
        ({ d.2.1 with psx := me0.psx, psy := me0.psy, psz := me0.psz,
                      dsx := me0.dsx, dsy := me0.dsy,
                      dsz := me0.dsz } : Event).uid
        { d.2.1 with psx := me0.psx, psy := me0.psy, psz := me0.psz,
                     dsx := me0.dsx, dsy := me0.dsy, dsz := me0.dsz } := by
      rw [← h1]
    constructor
    · refine ⟨{ d.2.1 with psx := me0.psx, psy := me0.psy, psz := me0.psz,
                           dsx := me0.dsx, dsy := me0.dsy, dsz := me0.dsz },
        ?_, rfl, rfl, rfl, rfl, rfl, rfl⟩
      rw [hh1]
      rw [show me0.uid = ({ d.2.1 with psx := me0.psx, psy := me0.psy,
                                       psz := me0.psz, dsx := me0.dsx,
                                       dsy := me0.dsy, dsz := me0.dsz }
          : Event).uid from hu.symm]
      exact getK_setK_self _ _ _
    · intro k hk
      have hk2 : k ≠ ({ d.2.1 with psx := me0.psx, psy := me0.psy,
                                   psz := me0.psz, dsx := me0.dsx,
                                   dsy := me0.dsy, dsz := me0.dsz }
          : Event).uid := by
        intro hcon
        apply hk
        rw [hcon]
        exact hu
      have hk3 : k ≠ d.2.1.uid := by
        intro hcon
        apply hk
        rw [hcon]
        exact hu
      rw [hh1, getK_setK_ne _ _ _ _ hk2, hh, getK_setK_ne _ _ _ _ hk3]

theorem clockUpdateLoop_heap (cfg : Config W) (timeNow : Int)
    (hb : BehPreservesUid cfg) :
    ∀ (batch : List Event) (st st2 : MState W) (tr : List TraceItem),
      clockUpdateLoop cfg timeNow batch st = some (st2, tr) →
      (batch.map Event.uid).Nodup →
      (∀ e2 ∈ batch, ∃ ef, getK st2.heap e2.uid = some ef ∧
        ef.psx = e2.psx ∧ ef.psy = e2.psy ∧ ef.psz = e2.psz ∧
        ef.dsx = e2.dsx ∧ ef.dsy = e2.dsy ∧ ef.dsz = e2.dsz) ∧
      (∀ k, k ∉ batch.map Event.uid → getK st2.heap k = getK st.heap k) := by
  intro batch
  induction batch with
  | nil =>
    intro st st2 tr h _
    simp only [clockUpdateLoop, Option.some.injEq, Prod.mk.injEq] at h
    rw [← h.1]
    exact ⟨fun e2 he2 => absurd he2 (List.not_mem_nil e2), fun k _ => rfl⟩
  | cons me0 rest ih =>
    intro st st2 tr h hnd
    simp only [List.map_cons, List.nodup_cons] at hnd
    rcases hnd with ⟨hu0, hnd2⟩
    simp only [clockUpdateLoop] at h
    rcases h1 : clockUpdateOne cfg timeNow st me0 with _ | r
    · rw [h1] at h
      simp at h
    · rw [h1] at h
      simp only [Option.some_bind] at h
      rcases h2 : clockUpdateLoop cfg timeNow rest r.1 with _ | s
      · rw [h2] at h
        simp at h
      · rw [h2] at h
        simp only [Option.map_some', Option.some.injEq, Prod.mk.injEq] at h
        obtain ⟨hs1, _⟩ := h
        have hone := clockUpdateOne_heap cfg timeNow st me0 r.1 r.2 hb
          (by rw [h1])
        have hih := ih r.1 s.1 s.2 (by rw [h2]) hnd2
        constructor
        · intro e2 he2
          rcases List.mem_cons.mp he2 with he | he
          · subst he
            rcases hone.1 with ⟨ef, hef, hf⟩
            refine ⟨ef, ?_, hf⟩
            rw [← hs1]
            rw [hih.2 e2.uid (by simpa using hu0)]
            exact hef
          · rw [← hs1]
            exact hih.1 e2 he
        · intro k hk
          simp only [List.map_cons, List.mem_cons] at hk
          push_neg at hk
          rw [← hs1]
          rw [hih.2 k (by simpa using hk.2)]
          exact hone.2 k hk.1

theorem collectStale_iff (cfg : Config W) (timeNow : Int)
    (times : List (Nat × Int)) (heap : List (Nat × Event))
    (hwf : ∀ k e, getK heap k = some e → e.uid = k) :
    ∀ (l : List (Nat × List (List Nat))) (batch : List Event),
      KeysND l →
      collectStale cfg timeNow times heap l = some batch →
      ∀ k e2, getK heap k = some e2 →
        (∃ snaps, getK l k = some snaps ∧ snaps ≠ []) →
        (e2 ∈ batch ↔ ∃ t0, getK times e2.uid = some t0 ∧
          cfg.event_repeat_timeout ≤ timeNow - t0) := by
  intro l
  induction l with
  | nil =>
    intro batch _ h k e2 _ hsn
    rcases hsn with ⟨snaps, hgl, _⟩
    simp [getK] at hgl
  | cons p rest ih =>
    rcases p with ⟨uid, snaps0⟩
    intro batch hnd h k e2 hke hsn
    rcases List.nodup_cons.mp hnd with ⟨hu0, hnd2⟩
    cases snaps0 with
    | nil => simp [collectStale] at h
    | cons s0 srest =>
      simp only [collectStale] at h
      rcases hh : getK heap uid with _ | me0
      · rw [hh] at h
        simp at h
      · rw [hh] at h
        simp only [Option.some_bind] at h
        rcases ht : getK times me0.uid with _ | t0
        · rw [ht] at h
          simp at h
        · rw [ht] at h
          simp only [Option.some_bind] at h
          rcases hr : collectStale cfg timeNow times heap rest with _ | l2
          · rw [hr] at h
            simp at h
          · rw [hr] at h
            simp only [Option.map_some', Option.some.injEq] at h
            by_cases hk : uid = k
            · subst hk
              have he : e2 = me0 := by
                have h9 := hh.symm.trans hke
                injection h9 with h9b
                exact h9b.symm
              subst he
              have huid0 : e2.uid = uid := hwf uid e2 hke
              by_cases hc : timeNow - t0 < cfg.event_repeat_timeout
              · rw [if_pos hc] at h
                rw [← h]
                constructor
                · intro hmem
                  exfalso
                  rcases collectStale_mem cfg timeNow times heap rest l2 hr
                    e2 hmem with ⟨k2, sn2, hmem2, hg2⟩
                  have : e2.uid = k2 := hwf k2 e2 hg2
                  rw [huid0] at this
                  apply hu0
                  rw [this]
                  exact List.mem_map.mpr ⟨(k2, sn2), hmem2, rfl⟩
                · intro hT
                  exfalso
                  rcases hT with ⟨t1, ht1, hle⟩
                  rw [ht] at ht1
                  injection ht1 with ht2
                  rw [ht2] at hc
                  omega
              · rw [if_neg hc] at h
                rw [← h]
                refine iff_of_true (List.mem_cons_self _ _) ⟨t0, ht, by omega⟩
            · have hne : e2 ≠ me0 := by
                intro hcon
                apply hk
                have h1 := hwf k e2 hke
                have h2 := hwf uid me0 hh
                rw [← h1, hcon, h2]
              have hgl2 : ∃ snaps, getK rest k = some snaps ∧ snaps ≠ [] := by
                rcases hsn with ⟨snaps, hgl, hn⟩
                refine ⟨snaps, ?_, hn⟩
                simp only [getK, if_neg hk] at hgl
                exact hgl
              have hiff := ih l2 hnd2 hr k e2 hke hgl2
              rw [← h]
              by_cases hc : timeNow - t0 < cfg.event_repeat_timeout
              · rw [if_pos hc]
                exact hiff
              · rw [if_neg hc]
                constructor
                · intro hmem
                  rcases List.mem_cons.mp hmem with hm | hm
                  · exact absurd hm hne
                  · exact hiff.mp hm
                · intro hT
                  exact List.mem_cons_of_mem _ (hiff.mpr hT)

/-- C4: on an idle-repeat tick, the batch collects exactly the tracked events
whose last-delivery timestamp is at least `event_repeat_timeout` old; each such
event is re-dispatched as an `"update"` whose delta fields are zero and whose
previous position equals the current position, and after the tick the event
object holds its original delta and previous-position values again. -/
theorem c4_idle_repeat_zero_delta (cfg : Config W) (timeNow : Int)
    (st : MState W) (hb : BehPreservesUid cfg)
    (hndE : KeysND st.events)
    (hwf : ∀ k e, getK st.heap k = some e → e.uid = k) :
    ∀ st' tr, dispatchFromClock cfg timeNow st = some (st', tr) →
      ∃ batch,
        collectStale cfg timeNow st.times st.heap st.events = some batch ∧
        (∀ k e2, getK st.heap k = some e2 →
          (∃ snaps, getK st.events k = some snaps ∧ snaps ≠ []) →
          (e2 ∈ batch ↔ ∃ t0, getK st.times e2.uid = some t0 ∧
            cfg.event_repeat_timeout ≤ timeNow - t0)) ∧
        (∀ e2 ∈ batch,
          TraceItem.clockDispatch { e2 with psx := e2.sx, psy := e2.sy, psz := e2.sz, dsx := 0, dsy := 0, dsz := 0 } ∈ tr ∧
          ({ e2 with psx := e2.sx, psy := e2.sy, psz := e2.sz, dsx := 0, dsy := 0, dsz := 0 } : Event).dsx = 0 ∧
          ({ e2 with psx := e2.sx, psy := e2.sy, psz := e2.sz, dsx := 0, dsy := 0, dsz := 0 } : Event).psx
            = ({ e2 with psx := e2.sx, psy := e2.sy, psz := e2.sz, dsx := 0, dsy := 0, dsz := 0 } : Event).sx ∧
          ({ e2 with psx := e2.sx, psy := e2.sy, psz := e2.sz, dsx := 0, dsy := 0, dsz := 0 } : Event).uid = e2.uid) ∧
        (∀ e2 ∈ batch, ∃ ef, getK st'.heap e2.uid = some ef ∧
          ef.psx = e2.psx ∧ ef.psy = e2.psy ∧ ef.psz = e2.psz ∧
          ef.dsx = e2.dsx ∧ ef.dsy = e2.dsy ∧ ef.dsz = e2.dsz) := by
  intro st' tr h
  simp only [dispatchFromClock] at h
  rcases hc : collectStale cfg timeNow st.times st.heap st.events with _ | batch
  · rw [hc] at h
    simp at h
  · rw [hc] at h
    simp only [Option.some_bind] at h
    have hndB : (batch.map Event.uid).Nodup :=
      List.Nodup.sublist
        (collectStale_uids_sublist cfg timeNow st.times st.heap hwf
          st.events batch hc) hndE
    refine ⟨batch, rfl, ?_, ?_, ?_⟩
    · intro k e2 hke hsn
      exact collectStale_iff cfg timeNow st.times st.heap hwf st.events batch
        hndE hc k e2 hke hsn
    · intro e2 he2
      refine ⟨?_, rfl, rfl, rfl⟩
      -- membership of the zero-delta clockDispatch item in the tick trace
      clear hc hndB hndE hwf
      revert st st' tr
      revert he2
      induction batch with
      | nil => intro he2 st st' tr h; exact absurd he2 (List.not_mem_nil e2)
      | cons me0 rest ihb =>
        intro he2 st st' tr h
        simp only [clockUpdateLoop] at h
        rcases h1 : clockUpdateOne cfg timeNow st me0 with _ | r
        · rw [h1] at h
          simp at h
        · rw [h1] at h
          simp only [Option.some_bind] at h
          rcases h2 : clockUpdateLoop cfg timeNow rest r.1 with _ | s
          · rw [h2] at h
            simp at h
          · rw [h2] at h
            simp only [Option.map_some', Option.some.injEq, Prod.mk.injEq] at h
            rw [← h.2]
            rcases List.mem_cons.mp he2 with he | he
            · subst he
              apply List.mem_append_left
              simp only [clockUpdateOne] at h1
              rcases h3 : dispatch cfg timeNow "update" st
                { e2 with psx := e2.sx, psy := e2.sy, psz := e2.sz, dsx := 0, dsy := 0, dsz := 0 } with _ | d
              · rw [h3] at h1
                simp at h1
              · rw [h3] at h1
                simp only [Option.map_some', Option.some.injEq] at h1
                rw [← h1]
                exact List.mem_cons_self _ _
            · apply List.mem_append_right
              exact ihb he r.1 s.1 s.2 (by rw [h2])
    · intro e2 he2
      exact (clockUpdateLoop_heap cfg timeNow hb batch st st' tr h hndB).1
        e2 he2

/-- Witness for C4: the two-entry ledger of the C6 witness. -/
theorem c4_witness :
    ∃ batch,
      collectStale (Config.mk [] (fun (u : Unit) _ _ e => (u, e, false))
          (fun _ => true) (fun _ => some 9) id (fun _ p => some p) 1)
        10
        (MState.mk [(3, [[4]]), (5, [[]])] [(3, 0), (5, 10)]
          [(3, mkMe 3 none (1, 1)), (5, mkMe 5 none (2, 2))] false ()).times
        (MState.mk [(3, [[4]]), (5, [[]])] [(3, 0), (5, 10)]
          [(3, mkMe 3 none (1, 1)), (5, mkMe 5 none (2, 2))] false ()).heap
        (MState.mk [(3, [[4]]), (5, [[]])] [(3, 0), (5, 10)]
          [(3, mkMe 3 none (1, 1)), (5, mkMe 5 none (2, 2))] false ()).events
        = some batch ∧
      (∀ k e2,
        getK (MState.mk [(3, [[4]]), (5, [[]])] [(3, 0), (5, 10)]
          [(3, mkMe 3 none (1, 1)), (5, mkMe 5 none (2, 2))] false ()).heap k
          = some e2 →
        (∃ snaps,
          getK (MState.mk [(3, [[4]]), (5, [[]])] [(3, 0), (5, 10)]
            [(3, mkMe 3 none (1, 1)), (5, mkMe 5 none (2, 2))] false
            ()).events k = some snaps ∧ snaps ≠ []) →
        (e2 ∈ batch ↔ ∃ t0,
          getK (MState.mk [(3, [[4]]), (5, [[]])] [(3, 0), (5, 10)]
            [(3, mkMe 3 none (1, 1)), (5, mkMe 5 none (2, 2))] false
            ()).times e2.uid = some t0 ∧
          (Config.mk [] (fun (u : Unit) _ _ e => (u, e, false)) (fun _ => true)
            (fun _ => some 9) id (fun _ p => some p)
            1).event_repeat_timeout ≤ 10 - t0)) ∧
      (∀ e2 ∈ batch,
        TraceItem.clockDispatch { e2 with psx := e2.sx, psy := e2.sy, psz := e2.sz, dsx := 0, dsy := 0, dsz := 0 }
          ∈ ((dispatchFromClock (Config.mk []
              (fun (u : Unit) _ _ e => (u, e, false)) (fun _ => true)
              (fun _ => some 9) id (fun _ p => some p) 1) 10
            (MState.mk [(3, [[4]]), (5, [[]])] [(3, 0), (5, 10)]
              [(3, mkMe 3 none (1, 1)), (5, mkMe 5 none (2, 2))] false
              ())).get (by decide)).2 ∧
        ({ e2 with psx := e2.sx, psy := e2.sy, psz := e2.sz, dsx := 0, dsy := 0, dsz := 0 } : Event).dsx = 0 ∧
        ({ e2 with psx := e2.sx, psy := e2.sy, psz := e2.sz, dsx := 0, dsy := 0, dsz := 0 } : Event).psx
          = ({ e2 with psx := e2.sx, psy := e2.sy, psz := e2.sz, dsx := 0, dsy := 0, dsz := 0 } : Event).sx ∧
        ({ e2 with psx := e2.sx, psy := e2.sy, psz := e2.sz, dsx := 0, dsy := 0, dsz := 0 } : Event).uid = e2.uid) ∧
      (∀ e2 ∈ batch, ∃ ef,
        getK (((dispatchFromClock (Config.mk []
            (fun (u : Unit) _ _ e => (u, e, false)) (fun _ => true)
            (fun _ => some 9) id (fun _ p => some p) 1) 10
          (MState.mk [(3, [[4]]), (5, [[]])] [(3, 0), (5, 10)]
            [(3, mkMe 3 none (1, 1)), (5, mkMe 5 none (2, 2))] false
            ())).get (by decide)).1).heap e2.uid = some ef ∧
        ef.psx = e2.psx ∧ ef.psy = e2.psy ∧ ef.psz = e2.psz ∧
        ef.dsx = e2.dsx ∧ ef.dsy = e2.dsy ∧ ef.dsz = e2.dsz) := by
  have h := c4_idle_repeat_zero_delta (Config.mk []
      (fun (u : Unit) _ _ e => (u, e, false)) (fun _ => true)
      (fun _ => some 9) id (fun _ p => some p) 1) 10
    (MState.mk [(3, [[4]]), (5, [[]])] [(3, 0), (5, 10)]
      [(3, mkMe 3 none (1, 1)), (5, mkMe 5 none (2, 2))] false ())
    (fun _ _ _ _ => rfl)
    (by simp [KeysND])
    (by
      intro k e he
      simp only [getK] at he
      by_cases h3 : (3 : Nat) = k
      · rw [if_pos h3] at he
        rw [← h3]
        injection he with he2
        rw [← he2]
        rfl
      · rw [if_neg h3] at he
        by_cases h5 : (5 : Nat) = k
        · rw [if_pos h5] at he
          rw [← h5]
          injection he with he2
          rw [← he2]
          rfl
        · rw [if_neg h5] at he
          simp [getK] at he)
    _ _ rfl
  exact h

/-! ## Claim C5 -/

theorem dispatchToWidget_items (cfg : Config W) (etype : String)
    (w : W) (me : Event) (v : Nat) :
    ∀ t ∈ (dispatchToWidget cfg etype w me v).2.2,
      t = TraceItem.transformFail v ∨
      t = TraceItem.directDelivery v etype me.uid (some v) := by
  intro t ht
  simp only [dispatchToWidget] at ht
  split at ht
  · split at ht
    · simp at ht
      left
      exact ht
    · simp only [deliverToWidget] at ht
      simp at ht
      right
      rw [ht]
      rfl
  · simp only [deliverToWidget] at ht
    simp at ht
    right
    rw [ht]

theorem reconcileLoop_items (cfg : Config W) (curList : List Nat)
    (hb : BehPreservesUid cfg) :
    ∀ (prev : List Nat) (w : W) (me : Event),
      ∀ t ∈ (reconcileLoop cfg curList prev w me).2.2,
        (∃ v, t = TraceItem.transformFail v) ∨
        ∃ v, t = TraceItem.directDelivery v "end" me.uid (some v) := by
  intro prev
  induction prev with
  | nil => intro w me t ht; simp [reconcileLoop] at ht
  | cons u rest ih =>
    intro w me t ht
    simp only [reconcileLoop] at ht
    split at ht
    · exact ih w me t ht
    · split at ht
      · dsimp only at ht
        rcases List.mem_append.mp ht with h1 | h1
        · rcases dispatchToWidget_items cfg "end" w me u t h1 with h2 | h2
          · exact Or.inl ⟨u, h2⟩
          · exact Or.inr ⟨u, h2⟩
        · have hu1 : ((dispatchToWidget cfg "end" w me u).2.1).uid = me.uid :=
            dispatchToWidget_uid cfg "end" hb w me u
          rcases ih _ _ t h1 with h2 | ⟨v2, h2⟩
          · exact Or.inl h2
          · right
            refine ⟨v2, ?_⟩
            rw [h2, hu1]
      · exact ih w me t ht

theorem dispatchToGrabbedWidgets_items (cfg : Config W) (now : Int)
    (hb : BehPreservesUid cfg) (w : W) (me : Event) (prev : List Nat) :
    ∀ t ∈ (dispatchToGrabbedWidgets cfg now w me prev).2.2,
      (∃ v, t = TraceItem.transformFail v) ∨
      ∃ v, t = TraceItem.directDelivery v "end" me.uid (some v) := by
  intro t ht
  simp only [dispatchToGrabbedWidgets] at ht
  have := reconcileLoop_items cfg me.grab_list hb prev w
    ({ { me with grab_list := prev }.update_time_end now with
       grab_state := true } : Event) t ht
  exact this

/-- The restored grab list of `_dispatch_to_grabbed_widgets` (needed to keep
the heap invariant "stored events have empty grab lists" through `stop`). -/
theorem dispatchToGrabbedWidgets_grab_list (cfg : Config W) (now : Int)
    (w : W) (me : Event) (prev : List Nat) :
    ((dispatchToGrabbedWidgets cfg now w me prev).2.1).grab_list
      = me.grab_list := rfl

theorem stopLoop_items (cfg : Config W) (now : Int)
    (hb : BehPreservesUid cfg) :
    ∀ (l : List (Nat × List (List Nat))) (w : W) (heap : List (Nat × Event))
      (r : W × List (Nat × Event) × List TraceItem),
      stopLoop cfg now l w heap = some r →
      (∀ k e, getK heap k = some e → e.uid = k) →
      ∀ t ∈ r.2.2,
        (∃ v, t = TraceItem.transformFail v) ∨
        ∃ k2 v, k2 ∈ l.map Prod.fst ∧
          t = TraceItem.directDelivery v "end" k2 (some v) := by
  intro l
  induction l with
  | nil =>
    intro w heap r h _ t ht
    simp only [stopLoop, Option.some.injEq] at h
    rw [← h] at ht
    simp at ht
  | cons p rest ih =>
    rcases p with ⟨uid, snaps⟩
    intro w heap r h hwf t ht
    cases snaps with
    | nil => simp [stopLoop] at h
    | cons s0 srest =>
      simp only [stopLoop] at h
      rcases hh : getK heap uid with _ | me
      · rw [hh] at h
        simp at h
      · rw [hh] at h
        simp only [Option.some_bind] at h
        rcases hs : stopLoop cfg now rest
            (dispatchToGrabbedWidgets cfg now w me s0).1
            (setK heap ((dispatchToGrabbedWidgets cfg now w me s0).2.1).uid
              (dispatchToGrabbedWidgets cfg now w me s0).2.1) with _ | s
        · rw [hs] at h
          simp at h
        · rw [hs] at h
          simp only [Option.map_some', Option.some.injEq] at h
          rw [← h] at ht
          dsimp only at ht
          rcases List.mem_append.mp ht with h1 | h1
          · rcases dispatchToGrabbedWidgets_items cfg now hb w me s0 t h1
              with h2 | ⟨v2, h2⟩
            · exact Or.inl h2
            · right
              refine ⟨uid, v2, by simp, ?_⟩
              rw [h2, hwf uid me hh]
          · have hwf2 : ∀ k e, getK (setK heap
                ((dispatchToGrabbedWidgets cfg now w me s0).2.1).uid
                (dispatchToGrabbedWidgets cfg now w me s0).2.1) k = some e →
                e.uid = k := by
              intro k e hke
              by_cases hk :
                  k = ((dispatchToGrabbedWidgets cfg now w me s0).2.1).uid
              · rw [hk, getK_setK_self] at hke
                injection hke with hke2
                rw [← hke2, hk]
              · rw [getK_setK_ne _ _ _ _ hk] at hke
                exact hwf k e hke
            rcases ih _ _ s hs hwf2 t h1 with h2 | ⟨k2, v2, hk2, h2⟩
            · exact Or.inl h2
            · right
              exact ⟨k2, v2, by simp [List.mem_cons]; right; simpa using hk2,
                h2⟩

theorem stopLoop_count (cfg : Config W) (now : Int)
    (hb : BehPreservesUid cfg)
    (htr : ∀ v pt, (cfg.transformWidget v pt).isSome) :
    ∀ (l : List (Nat × List (List Nat))) (w : W) (heap : List (Nat × Event))
      (r : W × List (Nat × Event) × List TraceItem),
      stopLoop cfg now l w heap = some r →
      (∀ k e, getK heap k = some e → e.uid = k) →
      (∀ k e, getK heap k = some e → e.grab_list = []) →
      KeysND l →
      ∀ k snaps s0 srest, (k, snaps) ∈ l → snaps = s0 :: srest → s0.Nodup →
        ∀ v ∈ s0, cfg.alive v = true →
          (r.2.2).countP (isDirectEndU v k) = 1 := by
  intro l
  induction l with
  | nil =>
    intro w heap r _ _ _ _ k snaps s0 srest hmem
    simp at hmem
  | cons p rest ih =>
    rcases p with ⟨uid, snaps0⟩
    intro w heap r h hwf hempty hnd k snaps s0 srest hmem hsn hnds0 v hv hal
    rcases List.nodup_cons.mp hnd with ⟨hu0, hnd2⟩
    cases snaps0 with
    | nil => simp [stopLoop] at h
    | cons t0 trest =>
      simp only [stopLoop] at h
      rcases hh : getK heap uid with _ | me
      · rw [hh] at h
        simp at h
      · rw [hh] at h
        simp only [Option.some_bind] at h
        rcases hs : stopLoop cfg now rest
            (dispatchToGrabbedWidgets cfg now w me t0).1
            (setK heap ((dispatchToGrabbedWidgets cfg now w me t0).2.1).uid
              (dispatchToGrabbedWidgets cfg now w me t0).2.1) with _ | s
        · rw [hs] at h
          simp at h
        · rw [hs] at h
          simp only [Option.map_some', Option.some.injEq] at h
          rw [← h]
          dsimp only
          rw [List.countP_append]
          have hme_uid : me.uid = uid := hwf uid me hh
          have hme_gl : me.grab_list = [] := hempty uid me hh
          rcases List.mem_cons.mp hmem with hhead | htail
          · -- the entry being flushed in this iteration
            injection hhead with hk1 hk2
            subst hk1
            rw [hk2] at hsn
            injection hsn with hs1 _
            subst hs1
            have hc1 : ((dispatchToGrabbedWidgets cfg now w me t0).2.2).countP
                (isDirectEndU v k) = 1 := by
              rw [show k = me.uid from hme_uid.symm]
              simp only [dispatchToGrabbedWidgets]
              have h0 := reconcileLoop_count cfg me.grab_list hb htr t0 w
                ({ { me with grab_list := t0 }.update_time_end now with
                   grab_state := true } : Event) v hnds0
              have h1 : ({ { me with grab_list := t0 }.update_time_end now with
                  grab_state := true } : Event).uid = me.uid := rfl
              rw [h1] at h0
              rw [h0, hme_gl]
              simp [hv, hal]
            have hc2 : (s.2.2).countP (isDirectEndU v k) = 0 := by
              rw [List.countP_eq_zero]
              intro t ht
              have hwf2 : ∀ k2 e, getK (setK heap
                  ((dispatchToGrabbedWidgets cfg now w me t0).2.1).uid
                  (dispatchToGrabbedWidgets cfg now w me t0).2.1) k2 = some e →
                  e.uid = k2 := by
                intro k2 e hke
                by_cases hk :
                    k2 = ((dispatchToGrabbedWidgets cfg now w me t0).2.1).uid
                · rw [hk, getK_setK_self] at hke
                  injection hke with hke2
                  rw [← hke2, hk]
                · rw [getK_setK_ne _ _ _ _ hk] at hke
                  exact hwf k2 e hke
              rcases stopLoop_items cfg now hb rest _ _ s hs hwf2 t ht
                with ⟨v2, h2⟩ | ⟨k2, v2, hk2, h2⟩
              · rw [h2]
                simp [isDirectEndU]
              · rw [h2]
                simp only [isDirectEndU]
                have : k2 ≠ k := by
                  intro hcon
                  apply hu0
                  rw [← hcon]
                  exact hk2
                simp [this]
            rw [hc1, hc2]
          · -- the entry lives further down the list
            have hkrest : k ∈ rest.map Prod.fst :=
              List.mem_map.mpr ⟨(k, snaps), htail, rfl⟩
            have hkne : k ≠ uid := by
              intro hcon
              apply hu0
              rw [← hcon]
              exact hkrest
            have hc1 : ((dispatchToGrabbedWidgets cfg now w me t0).2.2).countP
                (isDirectEndU v k) = 0 := by
              rw [List.countP_eq_zero]
              intro t ht
              rcases dispatchToGrabbedWidgets_items cfg now hb w me t0 t ht
                with ⟨v2, h2⟩ | ⟨v2, h2⟩
              · rw [h2]
                simp [isDirectEndU]
              · rw [h2]
                simp only [isDirectEndU]
                have : me.uid ≠ k := by
                  rw [hme_uid]
                  exact Ne.symm hkne
                simp [this]
            have hwf2 : ∀ k2 e, getK (setK heap
                ((dispatchToGrabbedWidgets cfg now w me t0).2.1).uid
                (dispatchToGrabbedWidgets cfg now w me t0).2.1) k2 = some e →
                e.uid = k2 := by
              intro k2 e hke
              by_cases hk :
                  k2 = ((dispatchToGrabbedWidgets cfg now w me t0).2.1).uid
              · rw [hk, getK_setK_self] at hke
                injection hke with hke2
                rw [← hke2, hk]
              · rw [getK_setK_ne _ _ _ _ hk] at hke
                exact hwf k2 e hke
            have hempty2 : ∀ k2 e, getK (setK heap
                ((dispatchToGrabbedWidgets cfg now w me t0).2.1).uid
                (dispatchToGrabbedWidgets cfg now w me t0).2.1) k2 = some e →
                e.grab_list = [] := by
              intro k2 e hke
              by_cases hk :
                  k2 = ((dispatchToGrabbedWidgets cfg now w me t0).2.1).uid
              · rw [hk, getK_setK_self] at hke
                injection hke with hke2
                rw [← hke2]
                rw [dispatchToGrabbedWidgets_grab_list]
                exact hme_gl
              · rw [getK_setK_ne _ _ _ _ hk] at hke
                exact hempty k2 e hke
            have hc2 := ih _ _ s hs hwf2 hempty2 hnd2 k snaps s0 srest htail
              hsn hnds0 v hv hal
            rw [hc1, hc2]

/-- C5: stopping the manager with tracked non-empty grab lists delivers one
synthetic `"end"` to each live widget of each tracked event's stored grab
list (within `stop`, before both ledger maps are cleared); after `stop`
returns, `_events` and `_event_times` are empty and the clock event is
cancelled.  (Stated in the normal regime: stored events carry their restored,
empty caller grab lists and succeeding transforms.) -/
theorem c5_stop_flush (cfg : Config W) (now : Int) (st : MState W)
    (hb : BehPreservesUid cfg)
    (htr : ∀ v pt, (cfg.transformWidget v pt).isSome)
    (hnd : KeysND st.events)
    (hwf : ∀ k e, getK st.heap k = some e → e.uid = k)
    (hempty : ∀ k e, getK st.heap k = some e → e.grab_list = []) :
    ∀ st' tr, stop cfg now st = some (st', tr) →
      st'.events = [] ∧ st'.times = [] ∧ st'.clockEvent = false ∧
      ∀ k snaps s0 srest, (k, snaps) ∈ st.events → snaps = s0 :: srest →
        s0.Nodup →
        ∀ v ∈ s0, cfg.alive v = true → tr.countP (isDirectEndU v k) = 1 := by
  intro st' tr h
  simp only [stop] at h
  rcases hs : stopLoop cfg now st.events st.world st.heap with _ | r
  · rw [hs] at h
    simp at h
  · rw [hs] at h
    simp only [Option.map_some', Option.some.injEq, Prod.mk.injEq] at h
    obtain ⟨h1, h2⟩ := h
    rw [← h1]
    refine ⟨rfl, rfl, rfl, ?_⟩
    intro k snaps s0 srest hmem hsn hnds0 v hv hal
    rw [← h2]
    exact stopLoop_count cfg now hb htr st.events st.world st.heap r hs
      hwf hempty hnd k snaps s0 srest hmem hsn hnds0 v hv hal

/-- Witness for C5: one tracked event with a one-widget stored grab list. -/
theorem c5_witness :
    (((stop (Config.mk [] (fun (u : Unit) _ _ e => (u, e, false))
          (fun _ => true) (fun _ => some 9) id (fun _ p => some p) 1)
        7 (MState.mk [(3, [[4]])] [(3, 0)] [(3, mkMe 3 none (1, 1))] true
          ())).get (by decide)).1).events = [] ∧
    (((stop (Config.mk [] (fun (u : Unit) _ _ e => (u, e, false))
          (fun _ => true) (fun _ => some 9) id (fun _ p => some p) 1)
        7 (MState.mk [(3, [[4]])] [(3, 0)] [(3, mkMe 3 none (1, 1))] true
          ())).get (by decide)).1).times = [] ∧
    (((stop (Config.mk [] (fun (u : Unit) _ _ e => (u, e, false))
          (fun _ => true) (fun _ => some 9) id (fun _ p => some p) 1)
        7 (MState.mk [(3, [[4]])] [(3, 0)] [(3, mkMe 3 none (1, 1))] true
          ())).get (by decide)).1).clockEvent = false ∧
    ∀ k snaps s0 srest,
      (k, snaps) ∈ (MState.mk [(3, [[4]])] [(3, 0)]
        [(3, mkMe 3 none (1, 1))] true ()).events →
      snaps = s0 :: srest → s0.Nodup →
      ∀ v ∈ s0,
        (Config.mk [] (fun (u : Unit) _ _ e => (u, e, false)) (fun _ => true)
          (fun _ => some 9) id (fun _ p => some p) 1).alive v = true →
        (((stop (Config.mk [] (fun (u : Unit) _ _ e => (u, e, false))
            (fun _ => true) (fun _ => some 9) id (fun _ p => some p) 1)
          7 (MState.mk [(3, [[4]])] [(3, 0)] [(3, mkMe 3 none (1, 1))] true
            ())).get (by decide)).2).countP (isDirectEndU v k) = 1 := by
  have hx : (stop (Config.mk [] (fun (u : Unit) _ _ e => (u, e, false))
      (fun _ => true) (fun _ => some 9) id (fun _ p => some p) 1)
      7 (MState.mk [(3, [[4]])] [(3, 0)] [(3, mkMe 3 none (1, 1))] true
        ())).isSome := by decide
  have h := c5_stop_flush (Config.mk [] (fun (u : Unit) _ _ e => (u, e, false))
      (fun _ => true) (fun _ => some 9) id (fun _ p => some p) 1)
    7 (MState.mk [(3, [[4]])] [(3, 0)] [(3, mkMe 3 none (1, 1))] true ())
    (fun _ _ _ _ => rfl) (fun _ _ => rfl) (by simp [KeysND])
    (by
      intro k e he
      simp only [getK] at he
      by_cases h3 : (3 : Nat) = k
      · rw [if_pos h3] at he
        rw [← h3]
        injection he with he2
        rw [← he2]
        rfl
      · rw [if_neg h3] at he
        simp [getK] at he)
    (by
      intro k e he
      simp only [getK] at he
      by_cases h3 : (3 : Nat) = k
      · rw [if_pos h3] at he
        injection he with he2
        rw [← he2]
        rfl
      · rw [if_neg h3] at he
        simp [getK] at he)
  exact h _ _ (Option.some_get hx).symm

/-! ## Claim C9 -/

theorem Event.uid_grab (me : Event) (v : Nat) : (me.grab v).uid = me.uid := by
  unfold Event.grab
  split <;> rfl

theorem Event.pos_grab (me : Event) (v : Nat) : (me.grab v).pos = me.pos := by
  unfold Event.grab
  split <;> rfl

/-- Inversion for `on_hover_event` callbacks: `on_hover_enter` fires only when
the uid was absent from `hover_ids`, and `on_hover_update` only when the
recorded position differs from the event's position. -/
theorem onHoverEvent_inv (v : HWidget) (h : List (Nat × (Int × Int)))
    (etype : String) (me : Event) (h1 : List (Nat × (Int × Int)))
    (me1 : Event) (cbs : List HCb) (acc : Bool)
    (hoe : onHoverEvent v h etype me = some (h1, me1, cbs, acc)) :
    (HCb.enter me.uid ∈ cbs → getK h me.uid = none) ∧
    (HCb.update me.uid ∈ cbs →
      ∃ q, getK h me.uid = some q ∧ q ≠ me.pos) := by
  simp only [onHoverEvent] at hoe
  split at hoe
  · split at hoe
    · -- grab_current branch
      simp only [Option.some.injEq, Prod.mk.injEq] at hoe
      obtain ⟨_, _, h3, _⟩ := hoe
      rw [← h3]
      exact ⟨fun hm => absurd hm (List.not_mem_nil _),
             fun hm => absurd hm (List.not_mem_nil _)⟩
    · split at hoe
      · -- disabled branch
        simp only [Option.some.injEq, Prod.mk.injEq] at hoe
        obtain ⟨_, _, h3, _⟩ := hoe
        rw [← h3]
        exact ⟨fun hm => absurd hm (List.not_mem_nil _),
               fun hm => absurd hm (List.not_mem_nil _)⟩
      · split at hoe
        · -- collide branch
          rcases hg : getK h ((me.grab v.wid).uid) with _ | q
          · rw [hg] at hoe
            dsimp only at hoe
            simp only [Option.some.injEq, Prod.mk.injEq] at hoe
            obtain ⟨_, _, h3, _⟩ := hoe
            rw [← h3]
            rw [Event.uid_grab] at hg
            constructor
            · intro _
              exact hg
            · intro hm
              simp at hm
          · rw [hg] at hoe
            rw [Event.uid_grab] at hg
            dsimp only at hoe
            by_cases hq : q ≠ (me.grab v.wid).pos
            · rw [if_pos hq] at hoe
              simp only [Option.some.injEq, Prod.mk.injEq] at hoe
              obtain ⟨_, _, h3, _⟩ := hoe
              rw [← h3]
              constructor
              · intro hm
                simp at hm
              · intro _
                refine ⟨q, hg, ?_⟩
                rw [Event.pos_grab] at hq
                exact hq
            · rw [if_neg hq] at hoe
              simp only [Option.some.injEq, Prod.mk.injEq] at hoe
              obtain ⟨_, _, h3, _⟩ := hoe
              rw [← h3]
              exact ⟨fun hm => absurd hm (List.not_mem_nil _),
                     fun hm => absurd hm (List.not_mem_nil _)⟩
        · -- no collision
          simp only [Option.some.injEq, Prod.mk.injEq] at hoe
          obtain ⟨_, _, h3, _⟩ := hoe
          rw [← h3]
          exact ⟨fun hm => absurd hm (List.not_mem_nil _),
                 fun hm => absurd hm (List.not_mem_nil _)⟩
  · split at hoe
    · split at hoe
      · -- end with grab_current = self
        rcases hd : delK h me.uid with _ | h2
        · rw [hd] at hoe
          simp at hoe
        · rw [hd] at hoe
          simp only [Option.some.injEq, Prod.mk.injEq] at hoe
          obtain ⟨_, _, h3, _⟩ := hoe
          rw [← h3]
          constructor
          · intro hm
            simp at hm
          · intro hm
            simp at hm
      · split at hoe
        · simp only [Option.some.injEq, Prod.mk.injEq] at hoe
          obtain ⟨_, _, h3, _⟩ := hoe
          rw [← h3]
          exact ⟨fun hm => absurd hm (List.not_mem_nil _),
                 fun hm => absurd hm (List.not_mem_nil _)⟩
        · simp only [Option.some.injEq, Prod.mk.injEq] at hoe
          obtain ⟨_, _, h3, _⟩ := hoe
          rw [← h3]
          exact ⟨fun hm => absurd hm (List.not_mem_nil _),
                 fun hm => absurd hm (List.not_mem_nil _)⟩
    · simp only [Option.some.injEq, Prod.mk.injEq] at hoe
      obtain ⟨_, _, h3, _⟩ := hoe
      rw [← h3]
      exact ⟨fun hm => absurd hm (List.not_mem_nil _),
             fun hm => absurd hm (List.not_mem_nil _)⟩

theorem onHoverEvent_grabCurrent (v : HWidget)
    (h : List (Nat × (Int × Int))) (et : String) (me : Event)
    (het : et = "begin" ∨ et = "update")
    (hgc : me.grab_current = some v.wid) :
    onHoverEvent v h et me = some (h, me, [], true) := by
  rcases het with he | he <;> subst he <;> simp [onHoverEvent, hgc]

theorem onHoverEvent_collide_enter (v : HWidget) (uid : Nat) (gc : Option Nat)
    (p : Int × Int) (h : List (Nat × (Int × Int))) (et : String)
    (het : et = "begin" ∨ et = "update") (hdis : v.disabled = false)
    (hcol : v.collidePoint p.1 p.2 = true) (hgc : gc ≠ some v.wid)
    (hnone : getK h uid = none) :
    onHoverEvent v h et (mkMe uid gc p)
      = some (setK h uid (p.1, p.2), (mkMe uid gc p).grab v.wid,
          [HCb.enter uid], true) := by
  rcases het with he | he <;> subst he <;>
    simp [onHoverEvent, mkMe, hdis, hcol, hgc, Event.uid_grab, hnone,
      Event.pos_grab, Event.pos, Event.grab]

theorem onHoverEvent_collide_present (v : HWidget) (uid : Nat)
    (gc : Option Nat) (p : Int × Int) (h : List (Nat × (Int × Int)))
    (q : Int × Int) (et : String)
    (het : et = "begin" ∨ et = "update") (hdis : v.disabled = false)
    (hcol : v.collidePoint p.1 p.2 = true) (hgc : gc ≠ some v.wid)
    (hq : getK h uid = some q) :
    onHoverEvent v h et (mkMe uid gc p)
      = if q ≠ (p.1, p.2) then
          some (setK h uid (p.1, p.2), (mkMe uid gc p).grab v.wid,
            [HCb.update uid], true)
        else some (h, (mkMe uid gc p).grab v.wid, [], true) := by
  rcases het with he | he <;> subst he <;>
    simp [onHoverEvent, mkMe, hdis, hcol, hgc, Event.uid_grab, hq,
      Event.pos_grab, Event.pos, Event.grab]

theorem hoverSeq_present (v : HWidget) (uid : Nat)
    (hdis : v.disabled = false) :
    ∀ (inputs : List (String × Option Nat × (Int × Int)))
      (h : List (Nat × (Int × Int))),
      (∀ i ∈ inputs, (i.1 = "begin" ∨ i.1 = "update") ∧
        v.collidePoint i.2.2.1 i.2.2.2 = true) →
      (getK h uid).isSome →
      ∃ hF cbs, hoverSeq v uid inputs h = some (hF, cbs) ∧
        cbs.count (HCb.enter uid) = 0 := by
  intro inputs
  induction inputs with
  | nil => intro h _ _; exact ⟨h, [], rfl, rfl⟩
  | cons i rest ih =>
    rcases i with ⟨et, gc, p⟩
    intro h hin hsome
    obtain ⟨het, hcol⟩ := hin (et, gc, p) (List.mem_cons_self _ _)
    have hinr := fun j hj => hin j (List.mem_cons_of_mem _ hj)
    by_cases hgc : gc = some v.wid
    · subst hgc
      have hstep := onHoverEvent_grabCurrent v h et
        (mkMe uid (some v.wid) p) het rfl
      rcases ih h hinr hsome with ⟨hF, cbs, hseq, hcnt⟩
      refine ⟨hF, [] ++ cbs, ?_, by simpa using hcnt⟩
      simp only [hoverSeq, hstep, hseq]
    · rcases hg : getK h uid with _ | q
      · rw [hg] at hsome
        simp at hsome
      · have hstep := onHoverEvent_collide_present v uid gc p h q et het
          hdis hcol hgc hg
        by_cases hne : q ≠ (p.1, p.2)
        · rw [if_pos hne] at hstep
          have hsome2 : (getK (setK h uid (p.1, p.2)) uid).isSome := by
            rw [getK_setK_self]
            rfl
          rcases ih (setK h uid (p.1, p.2)) hinr hsome2 with
            ⟨hF, cbs, hseq, hcnt⟩
          refine ⟨hF, [HCb.update uid] ++ cbs, ?_, ?_⟩
          · simp only [hoverSeq, hstep, hseq]
          · simp [hcnt]
        · rw [if_neg hne] at hstep
          rcases ih h hinr hsome with ⟨hF, cbs, hseq, hcnt⟩
          refine ⟨hF, [] ++ cbs, ?_, by simpa using hcnt⟩
          simp only [hoverSeq, hstep, hseq]

theorem hoverSeq_absent (v : HWidget) (uid : Nat)
    (hdis : v.disabled = false) :
    ∀ (inputs : List (String × Option Nat × (Int × Int)))
      (h : List (Nat × (Int × Int))),
      (∀ i ∈ inputs, (i.1 = "begin" ∨ i.1 = "update") ∧
        v.collidePoint i.2.2.1 i.2.2.2 = true) →
      getK h uid = none →
      ∃ hF cbs, hoverSeq v uid inputs h = some (hF, cbs) ∧
        cbs.count (HCb.enter uid)
          = (if inputs.any (fun i => i.2.1 != some v.wid) then 1 else 0) := by
  intro inputs
  induction inputs with
  | nil => intro h _ _; exact ⟨h, [], rfl, by simp⟩
  | cons i rest ih =>
    rcases i with ⟨et, gc, p⟩
    intro h hin hnone
    obtain ⟨het, hcol⟩ := hin (et, gc, p) (List.mem_cons_self _ _)
    have hinr := fun j hj => hin j (List.mem_cons_of_mem _ hj)
    by_cases hgc : gc = some v.wid
    · subst hgc
      have hstep := onHoverEvent_grabCurrent v h et
        (mkMe uid (some v.wid) p) het rfl
      rcases ih h hinr hnone with ⟨hF, cbs, hseq, hcnt⟩
      refine ⟨hF, [] ++ cbs, ?_, ?_⟩
      · simp only [hoverSeq, hstep, hseq]
      · rw [List.nil_append, hcnt, List.any_cons, bne_self_eq_false,
            Bool.false_or]
    · have hstep := onHoverEvent_collide_enter v uid gc p h et het
        hdis hcol hgc hnone
      have hsome2 : (getK (setK h uid (p.1, p.2)) uid).isSome := by
        rw [getK_setK_self]
        rfl
      rcases hoverSeq_present v uid hdis rest (setK h uid (p.1, p.2))
        hinr hsome2 with ⟨hF, cbs, hseq, hcnt⟩
      refine ⟨hF, [HCb.enter uid] ++ cbs, ?_, ?_⟩
      · simp only [hoverSeq, hstep, hseq]
      · have hb : (gc != some v.wid) = true := by
          simpa using hgc
        simp [List.any_cons, hb, hcnt, List.count_cons]

/-- C9: over a run of colliding `"begin"`/`"update"` deliveries of one event id
to an enabled widget, `on_hover_enter` fires exactly once (when the id first
enters `hover_ids`; never, if every delivery arrives as the grab holder);
deliveries with `grab_current` set to the widget fire nothing and change
nothing; deliveries whose recorded position equals the event position fire
neither enter nor update; and `on_hover_update` fires only when a recorded
position exists and differs from the event's position. -/
theorem c9_enter_once_update_on_move (v : HWidget) (uid : Nat)
    (h0 : List (Nat × (Int × Int)))
    (inputs : List (String × Option Nat × (Int × Int)))
    (hdis : v.disabled = false)
    (hin : ∀ i ∈ inputs, (i.1 = "begin" ∨ i.1 = "update") ∧
      v.collidePoint i.2.2.1 i.2.2.2 = true)
    (hfresh : getK h0 uid = none) :
    (∃ hF cbs, hoverSeq v uid inputs h0 = some (hF, cbs) ∧
      cbs.count (HCb.enter uid)
        = (if inputs.any (fun i => i.2.1 != some v.wid) then 1 else 0)) ∧
    (∀ (h : List (Nat × (Int × Int))) (et : String) (me : Event),
      (et = "begin" ∨ et = "update") → me.grab_current = some v.wid →
      onHoverEvent v h et me = some (h, me, [], true)) ∧
    (∀ (h h1 : List (Nat × (Int × Int))) (et : String) (me me1 : Event)
      (cbs : List HCb) (acc : Bool),
      onHoverEvent v h et me = some (h1, me1, cbs, acc) →
      getK h me.uid = some me.pos →
      HCb.enter me.uid ∉ cbs ∧ HCb.update me.uid ∉ cbs) ∧
    (∀ (h h1 : List (Nat × (Int × Int))) (et : String) (me me1 : Event)
      (cbs : List HCb) (acc : Bool),
      onHoverEvent v h et me = some (h1, me1, cbs, acc) →
      HCb.update me.uid ∈ cbs →
      ∃ q, getK h me.uid = some q ∧ q ≠ me.pos) := by
  refine ⟨hoverSeq_absent v uid hdis inputs h0 hin hfresh, ?_, ?_, ?_⟩
  · intro h et me het hgc
    exact onHoverEvent_grabCurrent v h et me het hgc
  · intro h h1 et me me1 cbs acc hoe hrec
    have hinv := onHoverEvent_inv v h et me h1 me1 cbs acc hoe
    constructor
    · intro hm
      have := hinv.1 hm
      rw [hrec] at this
      exact Option.noConfusion this
    · intro hm
      rcases hinv.2 hm with ⟨q, hq, hne⟩
      rw [hrec] at hq
      injection hq with hq2
      exact hne hq2.symm
  · intro h h1 et me me1 cbs acc hoe hm
    exact (onHoverEvent_inv v h et me h1 me1 cbs acc hoe).2 hm

/-- Witness for C9: four colliding deliveries, one of them as grab holder,
one with a changed position. -/
theorem c9_witness :
    (∃ hF cbs,
      hoverSeq (HWidget.mk 1 0 0 10 10 false) 7
        [("begin", none, (1, 1)), ("update", some 1, (1, 1)),
         ("update", none, (1, 1)), ("update", none, (2, 2))] []
        = some (hF, cbs) ∧
      cbs.count (HCb.enter 7)
        = (if ([("begin", (none : Option Nat), ((1 : Int), (1 : Int))),
                ("update", some 1, (1, 1)), ("update", none, (1, 1)),
                ("update", none, (2, 2))].any
              (fun i => i.2.1 != some (HWidget.mk 1 0 0 10 10 false).wid))
           then 1 else 0)) ∧
    (∀ (h : List (Nat × (Int × Int))) (et : String) (me : Event),
      (et = "begin" ∨ et = "update") →
      me.grab_current = some (HWidget.mk 1 0 0 10 10 false).wid →
      onHoverEvent (HWidget.mk 1 0 0 10 10 false) h et me
        = some (h, me, [], true)) ∧
    (∀ (h h1 : List (Nat × (Int × Int))) (et : String) (me me1 : Event)
      (cbs : List HCb) (acc : Bool),
      onHoverEvent (HWidget.mk 1 0 0 10 10 false) h et me
        = some (h1, me1, cbs, acc) →
      getK h me.uid = some me.pos →
      HCb.enter me.uid ∉ cbs ∧ HCb.update me.uid ∉ cbs) ∧
    (∀ (h h1 : List (Nat × (Int × Int))) (et : String) (me me1 : Event)
      (cbs : List HCb) (acc : Bool),
      onHoverEvent (HWidget.mk 1 0 0 10 10 false) h et me
        = some (h1, me1, cbs, acc) →
      HCb.update me.uid ∈ cbs →
      ∃ q, getK h me.uid = some q ∧ q ≠ me.pos) :=
  c9_enter_once_update_on_move (HWidget.mk 1 0 0 10 10 false) 7 []
    [("begin", none, (1, 1)), ("update", some 1, (1, 1)),
     ("update", none, (1, 1)), ("update", none, (2, 2))]
    rfl (by decide) rfl

/-! ## Claim C10 -/

theorem getD_setK_self {α : Type} (l : List (Nat × α)) (k : Nat) (v d : α) :
    getD (setK l k v) k d = v := by
  unfold getD
  rw [getK_setK_self]
  rfl

theorem getD_setK_ne {α : Type} (l : List (Nat × α)) (k k' : Nat) (v d : α)
    (h : k' ≠ k) : getD (setK l k v) k' d = getD l k' d := by
  unfold getD
  rw [getK_setK_ne l k k' v h]

theorem getK_eq_of_mem {α : Type} (l : List (Nat × α)) (p : Nat × α)
    (hnd : KeysND l) (h : p ∈ l) : getK l p.1 = some p.2 := by
  induction l with
  | nil => simp at h
  | cons q t ih =>
    rcases List.nodup_cons.mp hnd with ⟨hnot, hnd2⟩
    rcases List.mem_cons.mp h with h1 | h1
    · subst h1
      simp [getK]
    · by_cases hq : q.1 = p.1
      · exact absurd (by rw [hq]; exact List.mem_map.mpr ⟨p, h1, rfl⟩) hnot
      · simp only [getK, if_neg hq]
        exact ih hnd2 h1

theorem mem_of_delK {α : Type} (l l' : List (Nat × α)) (k : Nat)
    (h : delK l k = some l') (q : Nat × α) (hq : q ∈ l') : q ∈ l := by
  induction l generalizing l' with
  | nil => simp [delK] at h
  | cons p t ih =>
    by_cases hp : p.1 = k
    · simp only [delK, if_pos hp, Option.some.injEq] at h
      subst h
      exact List.mem_cons_of_mem _ hq
    · simp only [delK, if_neg hp, Option.map_eq_some'] at h
      rcases h with ⟨r, hr, hl'⟩
      subst hl'
      rcases List.mem_cons.mp hq with h1 | h1
      · rw [h1]; exact List.mem_cons_self _ _
      · exact List.mem_cons_of_mem _ (ih r hr h1)

theorem keysND_delK {α : Type} (l l' : List (Nat × α)) (k : Nat)
    (hnd : KeysND l) (h : delK l k = some l') : KeysND l' := by
  induction l generalizing l' with
  | nil => simp [delK] at h
  | cons p t ih =>
    rcases List.nodup_cons.mp hnd with ⟨hnot, hnd2⟩
    by_cases hp : p.1 = k
    · simp only [delK, if_pos hp, Option.some.injEq] at h
      subst h
      exact hnd2
    · simp only [delK, if_neg hp, Option.map_eq_some'] at h
      rcases h with ⟨r, hr, hl'⟩
      subst hl'
      refine List.nodup_cons.mpr ⟨?_, ih r hnd2 hr⟩
      intro hmem
      rcases List.mem_map.mp hmem with ⟨q, hq, hq1⟩
      exact hnot (List.mem_map.mpr ⟨q, mem_of_delK t r k hr q hq, hq1⟩)

theorem Event.gc_grab (me : Event) (v : Nat) :
    (me.grab v).grab_current = me.grab_current := by
  unfold Event.grab
  split <;> rfl

theorem Event.mem_grab (me : Event) (v u : Nat)
    (h : u ∈ (me.grab v).grab_list) : u ∈ me.grab_list ∨ u = v := by
  unfold Event.grab at h
  split at h
  · exact Or.inl h
  · simp only [List.mem_append, List.mem_singleton] at h
    exact h

theorem Event.grab_nodup (me : Event) (v : Nat)
    (h : me.grab_list.Nodup) : (me.grab v).grab_list.Nodup := by
  unfold Event.grab
  split
  · exact h
  · rename_i hnv
    refine List.nodup_append.mpr ⟨h, List.nodup_singleton v, ?_⟩
    intro a ha hb
    rw [List.mem_singleton] at hb
    subst hb
    exact hnv ha

theorem Event.uid_ungrab (me : Event) (v : Nat) :
    (me.ungrab v).uid = me.uid := rfl

theorem Event.gc_ungrab (me : Event) (v : Nat) :
    (me.ungrab v).grab_current = me.grab_current := rfl

theorem Event.mem_ungrab (me : Event) (v u : Nat)
    (h : u ∈ (me.ungrab v).grab_list) : u ∈ me.grab_list :=
  List.mem_of_mem_erase h

theorem Event.gc_pop (me : Event) : me.pop.grab_current = me.grab_current := by
  unfold Event.pop
  split <;> rfl

theorem Event.grab_list_pop (me : Event) : me.pop.grab_list = me.grab_list := by
  unfold Event.pop
  split <;> rfl

theorem onHoverEvent_cases (v : HWidget) (h : List (Nat × (Int × Int)))
    (etype : String) (me : Event) (h1 : List (Nat × (Int × Int)))
    (me1 : Event) (cbs : List HCb) (acc : Bool)
    (hoe : onHoverEvent v h etype me = some (h1, me1, cbs, acc)) :
    (h1 = h ∧ me1 = me) ∨
    (me1 = me.grab v.wid ∧ (getK h1 me.uid).isSome ∧
      (h1 = h ∨ h1 = setK h me.uid ((me.grab v.wid).pos))) ∨
    (∃ h2, delK h me.uid = some h2 ∧ h1 = h2 ∧ me1 = me.ungrab v.wid ∧
      me.grab_current = some v.wid) := by
  simp only [onHoverEvent] at hoe
  split at hoe
  · split at hoe
    · simp only [Option.some.injEq, Prod.mk.injEq] at hoe
      obtain ⟨ha, hb, _, _⟩ := hoe
      exact Or.inl ⟨ha.symm, hb.symm⟩
    · split at hoe
      · simp only [Option.some.injEq, Prod.mk.injEq] at hoe
        obtain ⟨ha, hb, _, _⟩ := hoe
        exact Or.inl ⟨ha.symm, hb.symm⟩
      · split at hoe
        · rcases hg : getK h ((me.grab v.wid).uid) with _ | q
          · rw [hg] at hoe
            dsimp only at hoe
            simp only [Option.some.injEq, Prod.mk.injEq] at hoe
            obtain ⟨ha, hb, _, _⟩ := hoe
            rw [Event.uid_grab] at hg
            refine Or.inr (Or.inl ⟨hb.symm, ?_, Or.inr ?_⟩)
            · rw [← ha, Event.uid_grab, getK_setK_self]
              rfl
            · rw [← ha, Event.uid_grab]
          · rw [hg] at hoe
            rw [Event.uid_grab] at hg
            dsimp only at hoe
            by_cases hq : q ≠ (me.grab v.wid).pos
            · rw [if_pos hq] at hoe
              simp only [Option.some.injEq, Prod.mk.injEq] at hoe
              obtain ⟨ha, hb, _, _⟩ := hoe
              refine Or.inr (Or.inl ⟨hb.symm, ?_, Or.inr ?_⟩)
              · rw [← ha, Event.uid_grab, getK_setK_self]
                rfl
              · rw [← ha, Event.uid_grab]
            · rw [if_neg hq] at hoe
              simp only [Option.some.injEq, Prod.mk.injEq] at hoe
              obtain ⟨ha, hb, _, _⟩ := hoe
              refine Or.inr (Or.inl ⟨hb.symm, ?_, Or.inl ha.symm⟩)
              rw [← ha, hg]
              rfl
        · simp only [Option.some.injEq, Prod.mk.injEq] at hoe
          obtain ⟨ha, hb, _, _⟩ := hoe
          exact Or.inl ⟨ha.symm, hb.symm⟩
  · split at hoe
    · split at hoe
      · rename_i hgc
        rcases hd : delK h me.uid with _ | h2
        · rw [hd] at hoe
          simp at hoe
        · rw [hd] at hoe
          simp only [Option.some.injEq, Prod.mk.injEq] at hoe
          obtain ⟨ha, hb, _, _⟩ := hoe
          exact Or.inr (Or.inr ⟨h2, rfl, ha.symm, hb.symm, hgc⟩)
      · split at hoe
        · simp only [Option.some.injEq, Prod.mk.injEq] at hoe
          obtain ⟨ha, hb, _, _⟩ := hoe
          exact Or.inl ⟨ha.symm, hb.symm⟩
        · simp only [Option.some.injEq, Prod.mk.injEq] at hoe
          obtain ⟨ha, hb, _, _⟩ := hoe
          exact Or.inl ⟨ha.symm, hb.symm⟩
    · simp only [Option.some.injEq, Prod.mk.injEq] at hoe
      obtain ⟨ha, hb, _, _⟩ := hoe
      exact Or.inl ⟨ha.symm, hb.symm⟩

theorem onHoverEvent_isSome (v : HWidget) (h : List (Nat × (Int × Int)))
    (etype : String) (me : Event) (hgcne : me.grab_current ≠ some v.wid) :
    (onHoverEvent v h etype me).isSome := by
  simp only [onHoverEvent]
  split
  · split
    · rfl
    · split
      · split
        · rfl
        · split <;> rfl
      · rfl
  · split
    · split <;> rfl
    · rfl

theorem onHoverEvent_end_self (v : HWidget) (h : List (Nat × (Int × Int)))
    (me : Event) (h2 : List (Nat × (Int × Int)))
    (hgc : me.grab_current = some v.wid)
    (hd : delK h me.uid = some h2) :
    onHoverEvent v h "end" me
      = some (h2, me.ungrab v.wid, [HCb.leave me.uid], true) := by
  simp [onHoverEvent, hgc, hd]

theorem hoverWorldBeh_uid (specs : List HWidget) (w : HWorld) (v : Nat)
    (et : String) (me : Event) :
    ((hoverWorldBeh specs w v et me).2.1).uid = me.uid := by
  unfold hoverWorldBeh
  rcases hf : specs.find? (fun s => s.wid == v) with _ | spec
  · rw [hf]
  · rw [hf]
    dsimp only
    rcases hoe : onHoverEvent spec (getD w.tbl v []) et me with _ | r
    · rfl
    · rcases r with ⟨h1, me1, cbs, acc⟩
      dsimp only
      rcases onHoverEvent_cases spec (getD w.tbl v []) et me h1 me1 cbs acc hoe
        with ⟨_, hb⟩ | ⟨hb, _, _⟩ | ⟨h2, _, _, hb, _⟩
      · rw [hb]
      · rw [hb, Event.uid_grab]
      · rw [hb, Event.uid_ungrab]

theorem hoverCfg_preservesUid (specs : List HWidget) (children : List Nat)
    (alive : Nat → Bool) (rootWin : Nat → Option Nat)
    (transformW : Int × Int → Int × Int)
    (transformWidget : Nat → Int × Int → Option (Int × Int)) (timeout : Int) :
    BehPreservesUid (hoverCfg specs children alive rootWin transformW
      transformWidget timeout) := by
  intro w v et me
  exact hoverWorldBeh_uid specs w v et me

theorem hoverWorldBeh_step (specs : List HWidget) (w : HWorld) (c : Nat)
    (etype : String) (me : Event) (w1 : HWorld) (me1 : Event) (acc : Bool)
    (hgc : me.grab_current = none)
    (hr : hoverWorldBeh specs w c etype me = (w1, me1, acc)) :
    w1.err = w.err ∧ me1.grab_current = none ∧ me1.uid = me.uid ∧
    (∀ v q, (getK (getD w.tbl v []) q).isSome →
      (getK (getD w1.tbl v []) q).isSome) ∧
    (∀ v, v ∈ me1.grab_list → v ∈ me.grab_list ∨
      (getK (getD w1.tbl v []) me.uid).isSome) ∧
    (me.grab_list.Nodup → me1.grab_list.Nodup) := by
  unfold hoverWorldBeh at hr
  rcases hf : specs.find? (fun s => s.wid == c) with _ | spec
  · rw [hf] at hr
    dsimp only at hr
    injection hr with h1 h2
    injection h2 with h2 h3
    subst h1
    subst h2
    exact ⟨rfl, hgc, rfl, fun v q hq => hq, fun v hv => Or.inl hv,
      fun hn => hn⟩
  · rw [hf] at hr
    dsimp only at hr
    have hwid : spec.wid = c := by
      have hfs := List.find?_some hf
      simpa using hfs
    have hgcne : me.grab_current ≠ some spec.wid := by
      rw [hgc]
      exact fun hx => Option.noConfusion hx
    have hsm := onHoverEvent_isSome spec (getD w.tbl c []) etype me hgcne
    rcases hoe : onHoverEvent spec (getD w.tbl c []) etype me with _ | r
    · rw [hoe] at hsm
      simp at hsm
    · rcases r with ⟨h1, meR, cbs, accR⟩
      rw [hoe] at hr
      dsimp only at hr
      injection hr with hw hrest
      injection hrest with hme hacc
      subst hw
      subst hme
      rcases onHoverEvent_cases spec (getD w.tbl c []) etype me h1 meR cbs accR
        hoe with ⟨hh, hm⟩ | ⟨hm, hs, hh⟩ | ⟨h2, _, _, _, hgc2⟩
      · refine ⟨rfl, ?_, ?_, ?_, ?_, ?_⟩
        · rw [hm, hgc]
        · rw [hm]
        · intro v q hq
          by_cases hvc : v = c
          · subst hvc
            show (getK (getD (setK w.tbl v h1) v []) q).isSome
            rw [getD_setK_self, hh]
            exact hq
          · show (getK (getD (setK w.tbl c h1) v []) q).isSome
            rw [getD_setK_ne w.tbl c v h1 [] hvc]
            exact hq
        · intro v hv
          rw [hm] at hv
          exact Or.inl hv
        · intro hn
          rw [hm]
          exact hn
      · refine ⟨rfl, ?_, ?_, ?_, ?_, ?_⟩
        · rw [hm, Event.gc_grab, hgc]
        · rw [hm, Event.uid_grab]
        · intro v q hq
          by_cases hvc : v = c
          · subst hvc
            show (getK (getD (setK w.tbl v h1) v []) q).isSome
            rw [getD_setK_self]
            rcases hh with hh | hh
            · rw [hh]
              exact hq
            · rw [hh]
              by_cases hqu : q = me.uid
              · subst hqu
                rw [getK_setK_self]
                rfl
              · rw [getK_setK_ne (getD w.tbl v []) me.uid q
                  ((me.grab spec.wid).pos) hqu]
                exact hq
          · show (getK (getD (setK w.tbl c h1) v []) q).isSome
            rw [getD_setK_ne w.tbl c v h1 [] hvc]
            exact hq
        · intro v hv
          rw [hm] at hv
          rcases Event.mem_grab me spec.wid v hv with h | h
          · exact Or.inl h
          · refine Or.inr ?_
            rw [h, ← hwid]
            show (getK (getD (setK w.tbl spec.wid h1) spec.wid [])
              me.uid).isSome
            rw [getD_setK_self]
            exact hs
        · intro hn
          rw [hm]
          exact Event.grab_nodup me spec.wid hn
      · rw [hgc] at hgc2
        exact Option.noConfusion hgc2

theorem walkWidgets_hover (cfg : Config HWorld) (specs : List HWidget)
    (hbeh : cfg.beh = hoverWorldBeh specs) (etype : String) :
    ∀ (l : List Nat) (w : HWorld) (me : Event) (w1 : HWorld) (me1 : Event)
      (acc : Bool) (tr : List TraceItem),
      me.grab_current = none →
      walkWidgets cfg etype l w me = (w1, me1, acc, tr) →
      w1.err = w.err ∧ me1.grab_current = none ∧ me1.uid = me.uid ∧
      (∀ v q, (getK (getD w.tbl v []) q).isSome →
        (getK (getD w1.tbl v []) q).isSome) ∧
      (∀ v, v ∈ me1.grab_list → v ∈ me.grab_list ∨
        (getK (getD w1.tbl v []) me.uid).isSome) ∧
      (me.grab_list.Nodup → me1.grab_list.Nodup) := by
  intro l
  induction l with
  | nil =>
    intro w me w1 me1 acc tr hgc hw
    simp only [walkWidgets] at hw
    injection hw with h1 h2
    injection h2 with h2 h3
    subst h1
    subst h2
    exact ⟨rfl, hgc, rfl, fun v q hq => hq, fun v hv => Or.inl hv,
      fun hn => hn⟩
  | cons c rest ih =>
    intro w me w1 me1 acc tr hgc hw
    simp only [walkWidgets] at hw
    rcases hb : cfg.beh w c etype me with ⟨wB, meB, accB⟩
    rw [hb] at hw
    dsimp only at hw
    have hstep := hoverWorldBeh_step specs w c etype me wB meB accB hgc
      (by rw [← hbeh]; exact hb)
    obtain ⟨herrB, hgcB, huidB, hmonoB, hnewB, hndB⟩ := hstep
    by_cases hacc : accB = true
    · rw [if_pos hacc] at hw
      injection hw with h1 h2
      injection h2 with h2 h3
      subst h1
      subst h2
      exact ⟨herrB, hgcB, huidB, hmonoB, hnewB, hndB⟩
    · rw [if_neg hacc] at hw
      rcases hww : walkWidgets cfg etype rest wB meB with ⟨wR, meR, accR, trR⟩
      rw [hww] at hw
      dsimp only at hw
      obtain ⟨herrR, hgcR, huidR, hmonoR, hnewR, hndR⟩ :=
        ih wB meB wR meR accR trR hgcB hww
      injection hw with h1 h2
      injection h2 with h2 h3
      subst h1
      subst h2
      refine ⟨herrR.trans herrB, hgcR, huidR.trans huidB, ?_, ?_, ?_⟩
      · intro v q hq
        exact hmonoR v q (hmonoB v q hq)
      · intro v hv
        rcases hnewR v hv with h | h
        · rcases hnewB v h with h2 | h2
          · exact Or.inl h2
          · exact Or.inr (hmonoR v me.uid h2)
        · rw [huidB] at h
          exact Or.inr h
      · intro hn
        exact hndR (hndB hn)

theorem dispatchToWidgets_hover (cfg : Config HWorld) (specs : List HWidget)
    (hbeh : cfg.beh = hoverWorldBeh specs) (etype : String) (w : HWorld)
    (me : Event) (w1 : HWorld) (me1 : Event) (acc : Bool)
    (tr : List TraceItem)
    (hgc : me.grab_current = none)
    (hw : dispatchToWidgets cfg etype w me = (w1, me1, acc, tr)) :
    w1.err = w.err ∧ me1.grab_current = none ∧ me1.uid = me.uid ∧
    (∀ v q, (getK (getD w.tbl v []) q).isSome →
      (getK (getD w1.tbl v []) q).isSome) ∧
    (∀ v, v ∈ me1.grab_list → v ∈ me.grab_list ∨
      (getK (getD w1.tbl v []) me.uid).isSome) ∧
    (me.grab_list.Nodup → me1.grab_list.Nodup) := by
  simp only [dispatchToWidgets] at hw
  rcases hww : walkWidgets cfg etype cfg.children w
      { me.push with
        x := (cfg.transformW (me.push.x, me.push.y)).1,
        y := (cfg.transformW (me.push.x, me.push.y)).2 }
    with ⟨wW, meW, accW, trW⟩
  rw [hww] at hw
  dsimp only at hw
  obtain ⟨herrW, hgcW, huidW, hmonoW, hnewW, hndW⟩ :=
    walkWidgets_hover cfg specs hbeh etype cfg.children w
      { me.push with
        x := (cfg.transformW (me.push.x, me.push.y)).1,
        y := (cfg.transformW (me.push.x, me.push.y)).2 }
      wW meW accW trW hgc hww
  injection hw with h1 h2
  injection h2 with h2 h3
  subst h1
  subst h2
  refine ⟨herrW, ?_, ?_, hmonoW, ?_, ?_⟩
  · rw [Event.gc_pop]
    exact hgcW
  · rw [Event.uid_pop]
    exact huidW
  · intro v hv
    rw [Event.grab_list_pop] at hv
    exact hnewW v hv
  · intro hn
    rw [Event.grab_list_pop]
    exact hndW hn

theorem deliverToWidget_hover_end (cfg : Config HWorld) (specs : List HWidget)
    (hbeh : cfg.beh = hoverWorldBeh specs) (w : HWorld) (me : Event) (u : Nat)
    (wD : HWorld) (meD : Event) (trD : List TraceItem)
    (hsome : (getK (getD w.tbl u []) me.uid).isSome)
    (hr : deliverToWidget cfg "end" w me u = (wD, meD, trD)) :
    wD.err = w.err ∧ meD.uid = me.uid ∧ meD.grab_current = me.grab_current ∧
    (∀ v q, (v = u → q ≠ me.uid) →
      (getK (getD w.tbl v []) q).isSome →
      (getK (getD wD.tbl v []) q).isSome) := by
  simp only [deliverToWidget, hbeh] at hr
  unfold hoverWorldBeh at hr
  rcases hf : specs.find? (fun s => s.wid == u) with _ | spec
  · rw [hf] at hr
    dsimp only at hr
    injection hr with hw hrest
    injection hrest with hme htr
    subst hw
    subst hme
    exact ⟨rfl, rfl, rfl, fun v q hcond hq => hq⟩
  · rw [hf] at hr
    dsimp only at hr
    have hwid : spec.wid = u := by
      have hfs := List.find?_some hf
      simpa using hfs
    have hdel : (delK (getD w.tbl u []) me.uid).isSome :=
      delK_isSome_of_getK (getD w.tbl u []) me.uid hsome
    rcases hd : delK (getD w.tbl u []) me.uid with _ | h2
    · rw [hd] at hdel
      simp at hdel
    · have hoe := onHoverEvent_end_self spec (getD w.tbl u [])
        { me with grab_current := some u } h2 (by rw [hwid]) hd
      rw [hoe] at hr
      dsimp only at hr
      injection hr with hw hrest
      injection hrest with hme htr
      subst hw
      subst hme
      refine ⟨rfl, rfl, rfl, ?_⟩
      intro v q hcond hq
      by_cases hvu : v = u
      · subst hvu
        have hqne := hcond rfl
        show (getK (getD (setK w.tbl v h2) v []) q).isSome
        rw [getD_setK_self,
          getK_of_delK_ne (getD w.tbl v []) h2 me.uid q hd hqne]
        exact hq
      · show (getK (getD (setK w.tbl u h2) v []) q).isSome
        rw [getD_setK_ne w.tbl u v h2 [] hvu]
        exact hq

theorem dispatchToWidget_hover_end (cfg : Config HWorld) (specs : List HWidget)
    (hbeh : cfg.beh = hoverWorldBeh specs) (w : HWorld) (me : Event) (u : Nat)
    (wD : HWorld) (meD : Event) (trD : List TraceItem)
    (hgc : me.grab_current = none)
    (hsome : (getK (getD w.tbl u []) me.uid).isSome)
    (hr : dispatchToWidget cfg "end" w me u = (wD, meD, trD)) :
    wD.err = w.err ∧ meD.uid = me.uid ∧ meD.grab_current = none ∧
    (∀ v q, (v = u → q ≠ me.uid) →
      (getK (getD w.tbl v []) q).isSome →
      (getK (getD wD.tbl v []) q).isSome) := by
  simp only [dispatchToWidget] at hr
  split at hr
  · rcases ht : cfg.transformWidget u (me.push.x, me.push.y) with _ | p
    · rw [ht] at hr
      dsimp only at hr
      injection hr with hw hrest
      injection hrest with hme htr
      subst hw
      subst hme
      refine ⟨rfl, ?_, ?_, fun v q hcond hq => hq⟩
      · rw [Event.pop_push]
      · rw [Event.pop_push]
        exact hgc
    · rw [ht] at hr
      dsimp only at hr
      rcases hdd : deliverToWidget cfg "end" w
          { me.push with x := p.1, y := p.2 } u with ⟨wX, meX, trX⟩
      rw [hdd] at hr
      dsimp only at hr
      obtain ⟨herr, huid, hgcX, hmono⟩ := deliverToWidget_hover_end cfg specs
        hbeh w { me.push with x := p.1, y := p.2 } u wX meX trX hsome hdd
      injection hr with hw hrest
      injection hrest with hme htr
      subst hw
      subst hme
      refine ⟨herr, ?_, ?_, hmono⟩
      · rw [Event.uid_pop]
        exact huid
      · rw [Event.gc_pop]
        exact hgcX.trans hgc
  · obtain ⟨herr, huid, hgcX, hmono⟩ := deliverToWidget_hover_end cfg specs
      hbeh w me u wD meD trD hsome hr
    exact ⟨herr, huid, hgcX.trans hgc, hmono⟩

theorem reconcileLoop_hover (cfg : Config HWorld) (specs : List HWidget)
    (hbeh : cfg.beh = hoverWorldBeh specs) (curList : List Nat) :
    ∀ (prev : List Nat) (w : HWorld) (me : Event),
      me.grab_current = none →
      prev.Nodup →
      (∀ v, v ∈ prev → (getK (getD w.tbl v []) me.uid).isSome) →
      ((reconcileLoop cfg curList prev w me).1).err = w.err ∧
      ((reconcileLoop cfg curList prev w me).2.1).uid = me.uid ∧
      ((reconcileLoop cfg curList prev w me).2.1).grab_current = none ∧
      (∀ v q, (v ∈ curList ∨ v ∉ prev ∨ q ≠ me.uid) →
        (getK (getD w.tbl v []) q).isSome →
        (getK (getD ((reconcileLoop cfg curList prev w me).1).tbl v [])
          q).isSome) := by
  intro prev
  induction prev with
  | nil =>
    intro w me hgc hnd hprev
    exact ⟨rfl, rfl, hgc, fun v q hcond hq => hq⟩
  | cons u rest ih =>
    intro w me hgc hnd hprev
    rcases List.nodup_cons.mp hnd with ⟨hu, hnd2⟩
    simp only [reconcileLoop]
    by_cases hcur : u ∈ curList
    · rw [if_pos hcur]
      obtain ⟨h1, h2, h3, h4⟩ := ih w me hgc hnd2
        (fun v hv => hprev v (List.mem_cons_of_mem u hv))
      refine ⟨h1, h2, h3, ?_⟩
      intro v q hcond hq
      refine h4 v q ?_ hq
      rcases hcond with h | h | h
      · exact Or.inl h
      · exact Or.inr (Or.inl (fun hv => h (List.mem_cons_of_mem u hv)))
      · exact Or.inr (Or.inr h)
    · rw [if_neg hcur]
      by_cases hal : cfg.alive u = true
      · rw [if_pos hal]
        rcases hdw : dispatchToWidget cfg "end" w me u with ⟨wD, meD, trD⟩
        dsimp only
        obtain ⟨herrD, huidD, hgcD, hmonoD⟩ := dispatchToWidget_hover_end cfg
          specs hbeh w me u wD meD trD hgc
          (hprev u (List.mem_cons_self u rest)) hdw
        have hprev2 : ∀ v, v ∈ rest →
            (getK (getD wD.tbl v []) meD.uid).isSome := by
          intro v hv
          rw [huidD]
          refine hmonoD v me.uid ?_ (hprev v (List.mem_cons_of_mem u hv))
          intro hvu
          exact absurd (hvu ▸ hv) hu
        obtain ⟨h1, h2, h3, h4⟩ := ih wD meD hgcD hnd2 hprev2
        refine ⟨h1.trans herrD, h2.trans huidD, h3, ?_⟩
        intro v q hcond hq
        have hq1 : (getK (getD wD.tbl v []) q).isSome := by
          refine hmonoD v q ?_ hq
          intro hvu
          subst hvu
          rcases hcond with h | h | h
          · exact absurd h hcur
          · exact absurd (List.mem_cons_self _ _) h
          · exact h
        refine h4 v q ?_ hq1
        rcases hcond with h | h | h
        · exact Or.inl h
        · refine Or.inr (Or.inl ?_)
          intro hv
          exact h (List.mem_cons_of_mem u hv)
        · refine Or.inr (Or.inr ?_)
          rw [huidD]
          exact h
      · rw [if_neg hal]
        obtain ⟨h1, h2, h3, h4⟩ := ih w me hgc hnd2
          (fun v hv => hprev v (List.mem_cons_of_mem u hv))
        refine ⟨h1, h2, h3, ?_⟩
        intro v q hcond hq
        refine h4 v q ?_ hq
        rcases hcond with h | h | h
        · exact Or.inl h
        · exact Or.inr (Or.inl (fun hv => h (List.mem_cons_of_mem u hv)))
        · exact Or.inr (Or.inr h)

theorem dispatchToGrabbedWidgets_hover (cfg : Config HWorld)
    (specs : List HWidget) (hbeh : cfg.beh = hoverWorldBeh specs) (now : Int)
    (w : HWorld) (me : Event) (prev : List Nat)
    (hgc : me.grab_current = none) (hnd : prev.Nodup)
    (hprev : ∀ v, v ∈ prev → (getK (getD w.tbl v []) me.uid).isSome) :
    ((dispatchToGrabbedWidgets cfg now w me prev).1).err = w.err ∧
    ((dispatchToGrabbedWidgets cfg now w me prev).2.1).uid = me.uid ∧
    (∀ v q, (v ∈ me.grab_list ∨ v ∉ prev ∨ q ≠ me.uid) →
      (getK (getD w.tbl v []) q).isSome →
      (getK (getD ((dispatchToGrabbedWidgets cfg now w me prev).1).tbl v [])
        q).isSome) := by
  obtain ⟨h1, h2, h3, h4⟩ := reconcileLoop_hover cfg specs hbeh me.grab_list
    prev w { me with grab_list := prev, time_end := now, grab_state := true }
    hgc hnd hprev
  exact ⟨h1, h2, h4⟩

/-- C10: a widget can enter an event's `grab_list` only through the collide
branch of `on_hover_event`, which also records the event's uid in its
`hover_ids`; consequently, across a full manager `dispatch` driving
`HoverBehavior` widgets from a state satisfying the grab/hover invariant,
the synthetic `"end"` deliveries always find the uid in `hover_ids`, no
`hover_ids.pop(me.uid)` raises `KeyError` (the error flag stays clear, and
`dispatch` returns), and the invariant is preserved. -/
theorem c10_grab_implies_hover (specs : List HWidget) (children : List Nat)
    (alive : Nat → Bool) (rootWin : Nat → Option Nat)
    (transformW : Int × Int → Int × Int)
    (transformWidget : Nat → Int × Int → Option (Int × Int)) (timeout : Int)
    (now : Int) (etype : String) (st : MState HWorld) (me : Event)
    (hinv : HInv st) (hgc : me.grab_current = none) :
    (∀ (v : HWidget) (h h1 : List (Nat × (Int × Int))) (et : String)
       (e e1 : Event) (cbs : List HCb) (acc : Bool),
      onHoverEvent v h et e = some (h1, e1, cbs, acc) →
      ∀ u, u ∈ e1.grab_list → u ∉ e.grab_list →
        u = v.wid ∧ (getK h1 e.uid).isSome) ∧
    (∃ st' me' acc tr,
      dispatch (hoverCfg specs children alive rootWin transformW
          transformWidget timeout) now etype st me
        = some (st', me', acc, tr) ∧ HInv st') := by
  constructor
  · intro v h h1 et e e1 cbs acc hoe u hu hnu
    rcases onHoverEvent_cases v h et e h1 e1 cbs acc hoe with
      ⟨hh, hm⟩ | ⟨hm, hs, hh⟩ | ⟨h2, _, hh, hm, _⟩
    · rw [hm] at hu
      exact absurd hu hnu
    · rw [hm] at hu
      rcases Event.mem_grab e v.wid u hu with h | h
      · exact absurd h hnu
      · exact ⟨h, hs⟩
    · rw [hm] at hu
      exact absurd (Event.mem_ungrab e v.wid u hu) hnu
  · obtain ⟨herr0, hknd0, hsnap0⟩ := hinv
    set cfg : Config HWorld := hoverCfg specs children alive rootWin
      transformW transformWidget timeout with hcfg
    have hbeh : cfg.beh = hoverWorldBeh specs := rfl
    rcases hrw : dispatchToWidgets cfg etype st.world
        { me with grab_list := [] } with ⟨w1, me1, acc1, tr1⟩
    obtain ⟨herr1, hgc1, huid1, hmono1, hnew1, hnd1⟩ :=
      dispatchToWidgets_hover cfg specs hbeh etype st.world
        { me with grab_list := [] } w1 me1 acc1 tr1 hgc hrw
    have huid1' : me1.uid = me.uid := huid1
    have hnew1' : ∀ v, v ∈ me1.grab_list →
        (getK (getD w1.tbl v []) me.uid).isSome := by
      intro v hv
      rcases hnew1 v hv with h | h
      · exact absurd h (List.not_mem_nil v)
      · exact h
    have hnd1' : me1.grab_list.Nodup := hnd1 List.nodup_nil
    simp only [dispatch, hrw]
    by_cases hl : ((me1.grab_list :: getD st.events me1.uid []).length = 2)
    · have hlen : (getD st.events me1.uid []).length = 1 := by
        simpa using hl
      rcases List.length_eq_one.mp hlen with ⟨s0, hs0⟩
      have hgk : getK st.events me1.uid = some [s0] := by
        rcases hq : getK st.events me1.uid with _ | vv
        · rw [getD, hq] at hs0
          simp at hs0
        · rw [getD, hq] at hs0
          simp at hs0
          rw [hs0]
      have hmem0 : (me1.uid, [s0]) ∈ st.events :=
        mem_of_getK_eq_some st.events me1.uid [s0] hgk
      have hsnaps0 := hsnap0 (me1.uid, [s0]) hmem0 s0 (List.mem_cons_self s0 [])
      have hs0nd : s0.Nodup := hsnaps0.1
      have hprevW : ∀ v, v ∈ s0 →
          (getK (getD w1.tbl v []) me1.uid).isSome := by
        intro v hv
        exact hmono1 v me1.uid (hsnaps0.2 v hv)
      obtain ⟨herr2, huid2, hmono2⟩ := dispatchToGrabbedWidgets_hover cfg specs
        hbeh now w1 me1 s0 hgc1 hs0nd hprevW
      rw [hs0]
      rw [if_pos (show (me1.grab_list :: [s0]).length = 2 from rfl)]
      rw [show (me1.grab_list :: [s0]).getLastD [] = s0 from rfl]
      rw [show (me1.grab_list :: [s0]).dropLast = [me1.grab_list] from rfl]
      have hknd2 : KeysND (setK (setK st.events me1.uid
          (me1.grab_list :: [s0])) me1.uid [me1.grab_list]) :=
        keysND_setK _ _ _ (keysND_setK _ _ _ hknd0)
      by_cases he : etype = "end"
      · rw [if_pos he]
        have hd1 : (delK (setK (setK st.events me1.uid
            (me1.grab_list :: [s0])) me1.uid [me1.grab_list])
            ((dispatchToGrabbedWidgets cfg now w1 me1 s0).2.1.uid)).isSome := by
          rw [huid2]
          apply delK_isSome_of_getK
          rw [getK_setK_self]
          rfl
        have hd2 : (delK (setK st.times me1.uid now)
            ((dispatchToGrabbedWidgets cfg now w1 me1 s0).2.1.uid)).isSome := by
          rw [huid2]
          apply delK_isSome_of_getK
          rw [getK_setK_self]
          rfl
        rcases Option.isSome_iff_exists.mp hd1 with ⟨e3, he3⟩
        rcases Option.isSome_iff_exists.mp hd2 with ⟨t3, ht3⟩
        rw [he3, ht3]
        dsimp only
        refine ⟨_, _, _, _, rfl, ?_, ?_, ?_⟩
        · show ((dispatchToGrabbedWidgets cfg now w1 me1 s0).1).err = false
          rw [herr2, herr1]
          exact herr0
        · show KeysND e3
          exact keysND_delK _ e3 _ hknd2 he3
        · intro p hp snap hsnap
          have hknd3 : KeysND e3 := keysND_delK _ e3 _ hknd2 he3
          have hpk : getK e3 p.1 = some p.2 := getK_eq_of_mem e3 p hknd3 hp
          have hpne : p.1 ≠ me1.uid := by
            intro hpe
            have hnone : getK e3 me1.uid = none := by
              have hx := getK_delK_self _ e3 _ hknd2 he3
              rw [huid2] at hx
              exact hx
            rw [hpe, hnone] at hpk
            exact Option.noConfusion hpk
          have hpk2 : getK st.events p.1 = some p.2 := by
            have hstep1 : getK e3 p.1 = getK (setK (setK st.events me1.uid
                (me1.grab_list :: [s0])) me1.uid [me1.grab_list]) p.1 := by
              refine getK_of_delK_ne _ e3 _ p.1 he3 ?_
              rw [huid2]
              exact hpne
            rw [hstep1, getK_setK_ne _ _ _ _ hpne,
              getK_setK_ne _ _ _ _ hpne] at hpk
            exact hpk
          have hmemst : (p.1, p.2) ∈ st.events :=
            mem_of_getK_eq_some st.events p.1 p.2 hpk2
          have hfacts := hsnap0 (p.1, p.2) hmemst snap hsnap
          refine ⟨hfacts.1, ?_⟩
          intro v hv
          refine hmono2 v p.1 (Or.inr (Or.inr hpne))
            (hmono1 v p.1 (hfacts.2 v hv))
      · rw [if_neg he]
        refine ⟨_, _, _, _, rfl, ?_, ?_, ?_⟩
        · show ((dispatchToGrabbedWidgets cfg now w1 me1 s0).1).err = false
          rw [herr2, herr1]
          exact herr0
        · exact hknd2
        · intro p hp snap hsnap
          have hpk : getK (setK (setK st.events me1.uid
              (me1.grab_list :: [s0])) me1.uid [me1.grab_list]) p.1
              = some p.2 := getK_eq_of_mem _ p hknd2 hp
          by_cases hpe : p.1 = me1.uid
          · rw [hpe, getK_setK_self] at hpk
            injection hpk with hpk
            rw [← hpk] at hsnap
            rw [List.mem_singleton] at hsnap
            subst hsnap
            refine ⟨hnd1', ?_⟩
            intro v hv
            rw [hpe, huid1']
            exact hmono2 v me.uid (Or.inl hv) (hnew1' v hv)
          · rw [getK_setK_ne _ _ _ _ hpe, getK_setK_ne _ _ _ _ hpe] at hpk
            have hmemst : (p.1, p.2) ∈ st.events :=
              mem_of_getK_eq_some st.events p.1 p.2 hpk
            have hfacts := hsnap0 (p.1, p.2) hmemst snap hsnap
            refine ⟨hfacts.1, ?_⟩
            intro v hv
            exact hmono2 v p.1 (Or.inr (Or.inr hpe))
              (hmono1 v p.1 (hfacts.2 v hv))
    · rw [if_neg hl]
      have hknd1 : KeysND (setK st.events me1.uid
          (me1.grab_list :: getD st.events me1.uid [])) :=
        keysND_setK _ _ _ hknd0
      by_cases he : etype = "end"
      · rw [if_pos he]
        have hd1 : (delK (setK st.events me1.uid
            (me1.grab_list :: getD st.events me1.uid []))
            me1.uid).isSome := by
          apply delK_isSome_of_getK
          rw [getK_setK_self]
          rfl
        have hd2 : (delK (setK st.times me1.uid now) me1.uid).isSome := by
          apply delK_isSome_of_getK
          rw [getK_setK_self]
          rfl
        rcases Option.isSome_iff_exists.mp hd1 with ⟨e3, he3⟩
        rcases Option.isSome_iff_exists.mp hd2 with ⟨t3, ht3⟩
        rw [he3, ht3]
        dsimp only
        refine ⟨_, _, _, _, rfl, ?_, ?_, ?_⟩
        · show w1.err = false
          rw [herr1]
          exact herr0
        · show KeysND e3
          exact keysND_delK _ e3 _ hknd1 he3
        · intro p hp snap hsnap
          have hknd3 : KeysND e3 := keysND_delK _ e3 _ hknd1 he3
          have hpk : getK e3 p.1 = some p.2 := getK_eq_of_mem e3 p hknd3 hp
          have hpne : p.1 ≠ me1.uid := by
            intro hpe
            have hnone : getK e3 me1.uid = none :=
              getK_delK_self _ e3 _ hknd1 he3
            rw [hpe, hnone] at hpk
            exact Option.noConfusion hpk
          have hpk2 : getK st.events p.1 = some p.2 := by
            have hstep1 : getK e3 p.1 = getK (setK st.events me1.uid
                (me1.grab_list :: getD st.events me1.uid [])) p.1 :=
              getK_of_delK_ne _ e3 _ p.1 he3 hpne
            rw [hstep1, getK_setK_ne _ _ _ _ hpne] at hpk
            exact hpk
          have hmemst : (p.1, p.2) ∈ st.events :=
            mem_of_getK_eq_some st.events p.1 p.2 hpk2
          have hfacts := hsnap0 (p.1, p.2) hmemst snap hsnap
          exact ⟨hfacts.1, fun v hv => hmono1 v p.1 (hfacts.2 v hv)⟩
      · rw [if_neg he]
        refine ⟨_, _, _, _, rfl, ?_, ?_, ?_⟩
        · show w1.err = false
          rw [herr1]
          exact herr0
        · exact hknd1
        · intro p hp snap hsnap
          have hpk : getK (setK st.events me1.uid
              (me1.grab_list :: getD st.events me1.uid [])) p.1
              = some p.2 := getK_eq_of_mem _ p hknd1 hp
          by_cases hpe : p.1 = me1.uid
          · rw [hpe, getK_setK_self] at hpk
            injection hpk with hpk
            rw [← hpk] at hsnap
            rcases List.mem_cons.mp hsnap with hsn | hsn
            · subst hsn
              refine ⟨hnd1', ?_⟩
              intro v hv
              rw [hpe, huid1']
              exact hnew1' v hv
            · rcases hq : getK st.events me1.uid with _ | ov
              · rw [getD, hq] at hsn
                simp at hsn
              · rw [getD, hq] at hsn
                have hmemst : (me1.uid, ov) ∈ st.events :=
                  mem_of_getK_eq_some st.events me1.uid ov hq
                have hfacts := hsnap0 (me1.uid, ov) hmemst snap hsn
                refine ⟨hfacts.1, ?_⟩
                intro v hv
                rw [hpe]
                exact hmono1 v me1.uid (hfacts.2 v hv)
          · rw [getK_setK_ne _ _ _ _ hpe] at hpk
            have hmemst : (p.1, p.2) ∈ st.events :=
              mem_of_getK_eq_some st.events p.1 p.2 hpk
            have hfacts := hsnap0 (p.1, p.2) hmemst snap hsnap
            exact ⟨hfacts.1, fun v hv => hmono1 v p.1 (hfacts.2 v hv)⟩

/-- Witness for C10: one enabled widget under the pointer, an empty starting
state, a `"begin"` dispatch. -/
theorem c10_witness :
    HInv { events := [], times := [], heap := [], clockEvent := false,
           world := { tbl := [], err := false } } ∧
    (mkMe 3 none (1, 1)).grab_current = none ∧
    ((∀ (v : HWidget) (h h1 : List (Nat × (Int × Int))) (et : String)
       (e e1 : Event) (cbs : List HCb) (acc : Bool),
      onHoverEvent v h et e = some (h1, e1, cbs, acc) →
      ∀ u, u ∈ e1.grab_list → u ∉ e.grab_list →
        u = v.wid ∧ (getK h1 e.uid).isSome) ∧
    (∃ st' me' acc tr,
      dispatch (hoverCfg [HWidget.mk 5 0 0 10 10 false] [5] (fun _ => true)
          (fun _ => none) id (fun _ p => some p) 1) 0 "begin"
          { events := [], times := [], heap := [], clockEvent := false,
            world := { tbl := [], err := false } } (mkMe 3 none (1, 1))
        = some (st', me', acc, tr) ∧ HInv st')) :=
  ⟨⟨rfl, by simp [KeysND], by simp⟩, rfl,
    c10_grab_implies_hover [HWidget.mk 5 0 0 10 10 false] [5] (fun _ => true)
      (fun _ => none) id (fun _ p => some p) 1 0 "begin"
      { events := [], times := [], heap := [], clockEvent := false,
        world := { tbl := [], err := false } } (mkMe 3 none (1, 1))
      ⟨rfl, by simp [KeysND], by simp⟩ rfl⟩

end Hover
